import Mathlib

/-!
# Gazebo: physics regression test and camera sensor

A shallow embedding of

* `test/regression/physics.cc` (the `State`, `DropStuff` and
  `SimplePendulumTest` regression tests), and
* `src/sensors/CameraSensor.cc` (the camera sensor),

together with the properties proved about them.  C++ `double` values are
embedded as rationals: exactly where a property is about exact arithmetic or
only about order, and with explicit rounding to binary64 where rounding
decides the property.
-/

namespace Gazebo

/-! ## `TEST_F(PhysicsTest, DropStuff)` -/

namespace DropStuff

/-- The locals of the test that live across loop iterations
(`physics.cc`, lines 96, 97 and 105). -/
structure Vars where
  v : ℚ
  z : ℚ
  post_contact_correction : Bool
deriving DecidableEq, Repr

/-- Lines 110-111, `v = v + dt * g; z = z + dt * v;`, read in exact
arithmetic: the second assignment reads the `v` just written.  The same lines
with the rounding of `double` arithmetic are `integrateFl`. -/
def integrate (dt g : ℚ) (s : Vars) : Vars :=
  let v := s.v + dt * g
  let z := s.z + dt * v
  { s with v := v, z := z }

/-- The two expectations a body can be held to:
`EXPECT_TRUE(fabs(pose.pos.z - z) < 0.0001)` and
`EXPECT_TRUE(fabs(pose.pos.z - 0.5) < 0.00001)`. -/
inductive Check where
  | trajectory (z : ℚ)
  | resting
deriving DecidableEq, Repr

/-- The height the body is compared with. -/
def Check.target : Check → ℚ
  | .trajectory z => z
  | .resting => 1 / 2

/-- The bound on the absolute difference. -/
def Check.tolerance : Check → ℚ
  | .trajectory _ => 1 / 10000
  | .resting => 1 / 100000

/-- The argument of `EXPECT_TRUE` for a body at height `poseZ`. -/
def Check.holds (c : Check) (poseZ : ℚ) : Bool :=
  decide (|poseZ - c.target| < c.tolerance)

/-- The condition of lines 122, 134 and 146,
`if (z > 0.5 || !post_contact_correction)`, and the branch it selects. -/
def selectCheck (z : ℚ) (post_contact_correction : Bool) : Check :=
  if z > 1 / 2 ∨ post_contact_correction = false then .trajectory z else .resting

/-- Line 152, `if (z < 0.5) post_contact_correction = true;`. -/
def updateFlag (s : Vars) : Vars :=
  if s.z < 1 / 2 then { s with post_contact_correction := true } else s

/-- The three models the test looks up by name. -/
inductive Body where
  | box
  | sphere
  | cylinder
deriving DecidableEq, Repr

/-- One of the blocks of lines 116-150: nothing is expected of a model that
`GetModel` does not find; otherwise the selected expectation is evaluated on
the model's `pose.pos.z`. -/
def bodyBlock (poseZ : Option ℚ) (s : Vars) : Option (Check × Bool) :=
  match poseZ with
  | none => none
  | some pz =>
      let c := selectCheck s.z s.post_contact_correction
      some (c, c.holds pz)

/-- One pass through the loop body (lines 109-152).  `poseZ b` is what the
world reports for body `b` after `StepWorld(1)`.  The result is the locals
after the pass and the outcome of the three blocks. -/
def iteration (dt g : ℚ) (poseZ : Body → Option ℚ) (s : Vars) :
    Vars × List (Body × Option (Check × Bool)) :=
  let s1 := integrate dt g s
  let out := [Body.box, Body.sphere, Body.cylinder].map fun b => (b, bodyBlock (poseZ b) s1)
  (updateFlag s1, out)

/-- The locals at the start of iteration `i` (after `i` passes). -/
def varsAt (dt g : ℚ) (s0 : Vars) : ℕ → Vars
  | 0 => s0
  | i + 1 => updateFlag (integrate dt g (varsAt dt g s0 i))

/-- The reference height `z` that iteration `i` computes and compares with. -/
def refZ (dt g : ℚ) (s0 : Vars) (i : ℕ) : ℚ :=
  (integrate dt g (varsAt dt g s0 i)).z

/-- The expectation iteration `i` applies to every body that is present. -/
def checkAt (dt g : ℚ) (s0 : Vars) (i : ℕ) : Check :=
  selectCheck (refZ dt g s0 i) (varsAt dt g s0 i).post_contact_correction

/-- Line 104, `int steps = test_duration/dt;` with `test_duration = 1.5`:
conversion to `int` truncates towards zero.  The quotient is the exact one
here; with the rounding of `double` division it is `stepsFl`.  (For `dt = 0`,
and for a quotient that does not fit an `int`, the C++ conversion is
undefined; the value here is `0` for `dt = 0`.) -/
def steps (dt : ℚ) : ℤ :=
  Int.tdiv ((3 / 2 : ℚ) / dt).num ((3 / 2 : ℚ) / dt).den

/-- The loop `for (int i = 0; i < steps; i++)`, with `n` passes left to
run, the pass counter at `i` and the locals `s`; `reading i b` is the height
of body `b` that the world reports in pass `i`. -/
def loop (dt g : ℚ) (reading : ℕ → Body → Option ℚ) :
    ℕ → ℕ → Vars → List (ℕ × Body × Option (Check × Bool))
  | 0, _, _ => []
  | n + 1, i, s =>
      let r := iteration dt g (reading i) s
      r.2.map (fun p => (i, p.1, p.2)) ++ loop dt g reading n (i + 1) r.1

/-- The initial values of lines 96-98 and 105: `z = 10.5`, `v = 0.0`,
`post_contact_correction = false`. -/
def init : Vars := { v := 0, z := 21 / 2, post_contact_correction := false }

/-- Line 98, `double g = -10.0`. -/
def g : ℚ := -10

/-- The body of the test between `Load` and `Unload`: every expectation
evaluated, in order. -/
def run (dt : ℚ) (reading : ℕ → Body → Option ℚ) :
    List (ℕ × Body × Option (Check × Bool)) :=
  loop dt g reading (steps dt).toNat 0 init

/-- Lines 110-111 with every arithmetic result rounded by `fl`, as `double`
arithmetic does: `dt * g` is rounded, then the sum; `dt * v` is rounded, then
the sum. -/
def integrateFl (fl : ℚ → ℚ) (dt g : ℚ) (s : Vars) : Vars :=
  let v := fl (s.v + fl (dt * g))
  let z := fl (s.z + fl (dt * v))
  { s with v := v, z := z }

/-- One pass through the loop body (lines 109-152) in rounded arithmetic. -/
def iterationFl (fl : ℚ → ℚ) (dt g : ℚ) (poseZ : Body → Option ℚ) (s : Vars) :
    Vars × List (Body × Option (Check × Bool)) :=
  let s1 := integrateFl fl dt g s
  let out := [Body.box, Body.sphere, Body.cylinder].map fun b => (b, bodyBlock (poseZ b) s1)
  (updateFlag s1, out)

/-- The locals at the start of iteration `i` in rounded arithmetic. -/
def varsAtFl (fl : ℚ → ℚ) (dt g : ℚ) (s0 : Vars) : ℕ → Vars
  | 0 => s0
  | i + 1 => updateFlag (integrateFl fl dt g (varsAtFl fl dt g s0 i))

/-- The reference height `z` of iteration `i` in rounded arithmetic. -/
def refZFl (fl : ℚ → ℚ) (dt g : ℚ) (s0 : Vars) (i : ℕ) : ℚ :=
  (integrateFl fl dt g (varsAtFl fl dt g s0 i)).z

/-- The expectation iteration `i` applies in rounded arithmetic. -/
def checkAtFl (fl : ℚ → ℚ) (dt g : ℚ) (s0 : Vars) (i : ℕ) : Check :=
  selectCheck (refZFl fl dt g s0 i) (varsAtFl fl dt g s0 i).post_contact_correction

/-- The loop in rounded arithmetic, with `n` passes left to run. -/
def loopFl (fl : ℚ → ℚ) (dt g : ℚ) (reading : ℕ → Body → Option ℚ) :
    ℕ → ℕ → Vars → List (ℕ × Body × Option (Check × Bool))
  | 0, _, _ => []
  | n + 1, i, s =>
      let r := iterationFl fl dt g (reading i) s
      r.2.map (fun p => (i, p.1, p.2)) ++ loopFl fl dt g reading n (i + 1) r.1

/-- Line 104 in rounded arithmetic: the quotient `1.5/dt` is rounded and
then truncated towards zero.  (The C++ conversion is defined only when the
result fits an `int`.) -/
def stepsFl (fl : ℚ → ℚ) (dt : ℚ) : ℤ :=
  Int.tdiv (fl ((3 / 2 : ℚ) / dt)).num (fl ((3 / 2 : ℚ) / dt)).den

end DropStuff

/-! ## IEEE 754 binary64 rounding

The tests compute in C++ `double`.  Where rounding matters, a `double`
operation is the exact operation followed by rounding to the nearest
representable value, ties to even.  Finite values only: overflow to an
infinity is not part of the model (no pass that the drop test runs comes near
it: there `dt <= 1.5` and the heights stay within a few tens in magnitude). -/

namespace ieee

/-- Rounding of a rational to the nearest integer, ties to the even one. -/
def roundHalfEven (r : ℚ) : ℤ :=
  if r - ⌊r⌋ < 1 / 2 then ⌊r⌋
  else if 1 / 2 < r - ⌊r⌋ then ⌊r⌋ + 1
  else if ⌊r⌋ % 2 = 0 then ⌊r⌋ else ⌊r⌋ + 1

/-- The exponent of the unit in the last place of a non-negative `x`: 52
below the binary exponent of `x`, which is not taken below `-1022`
(subnormal numbers share the unit `2^-1074`). -/
def ulpExponent (x : ℚ) : ℤ := max (Int.log 2 x) (-1022) - 52

/-- Rounding of a non-negative `x` to a whole number of units in the last
place (a significand of 53 bits). -/
def roundMagnitude (x : ℚ) : ℚ :=
  roundHalfEven (x / 2 ^ ulpExponent x) * 2 ^ ulpExponent x

/-- Rounding to the nearest binary64 value, ties to even; it is symmetric
in the sign. -/
def binary64 (x : ℚ) : ℚ :=
  if x < 0 then -roundMagnitude (-x) else roundMagnitude x

/-- What the drop test needs of a rounding: it keeps the order, keeps zero
and keeps the values it produces. -/
structure IsRounding (fl : ℚ → ℚ) : Prop where
  mono : ∀ x y, x ≤ y → fl x ≤ fl y
  zero : fl 0 = 0
  idem : ∀ x, fl (fl x) = fl x

end ieee

/-! ## Poses (`math::Vector3`, `math::Quaternion`, `math::Pose`) -/

namespace math

/-- Modelled from the spec: the position part of a pose (the header of
`math::Vector3` is not among the sources). -/
structure Vector3 where
  x : ℚ
  y : ℚ
  z : ℚ
deriving DecidableEq, Repr

/-- Modelled from the spec: the orientation part of a pose (the header of
`math::Quaternion` is not among the sources). -/
structure Quaternion where
  w : ℚ
  x : ℚ
  y : ℚ
  z : ℚ
deriving DecidableEq, Repr

/-- The rotation the tests write `math::Quaternion(0, 0, 0)`: zero roll,
pitch and yaw. -/
def Quaternion.zeroEuler : Quaternion := ⟨1, 0, 0, 0⟩

/-- Modelled from the spec: a 3D position and an orientation. -/
structure Pose where
  pos : Vector3
  rot : Quaternion
deriving DecidableEq, Repr

end math

/-! ## The world: entity graph, snapshots and stepping

None of `World`, `Model`, `Link`, `WorldState`, ... is among the sources; only
the regression tests that call them are.  The definitions of this section
follow sections 3, 4.1 and 4.5 of the specification. -/

namespace physics

open math

/-- Modelled from the spec: `CollisionState`, the name and pose of a
collision at capture time. -/
structure CollisionState where
  name : String
  pose : Pose
deriving DecidableEq, Repr

/-- Modelled from the spec: `LinkState`, the name and pose of a link and the
states of its collisions, in insertion order. -/
structure LinkState where
  name : String
  pose : Pose
  collisionStates : List CollisionState
deriving DecidableEq, Repr

/-- Modelled from the spec: `ModelState`, the name and pose of a model and
the states of its links, in insertion order. -/
structure ModelState where
  name : String
  pose : Pose
  linkStates : List LinkState
deriving DecidableEq, Repr

/-- Modelled from the spec: `WorldState`, the states of the models of a
world, in insertion order. -/
structure WorldState where
  modelStates : List ModelState
deriving DecidableEq, Repr

/-- Modelled from the spec: `Collision`, named geometry attached to a link
with a fixed local offset pose. -/
structure Collision where
  name : String
  pose : Pose
deriving DecidableEq, Repr

/-- Modelled from the spec: `Link`, a named rigid body with mass, world
pose, linear and angular velocity, owning its collisions. -/
structure Link where
  name : String
  mass : ℚ
  worldPose : Pose
  linearVel : Vector3
  angularVel : Vector3
  collisions : List Collision
deriving DecidableEq, Repr

/-- Modelled from the spec: `Joint`, connecting a child link to a parent
link (or to the world when there is none) about an axis.  The angle is not a
field: it is derived from the poses of the links. -/
structure Joint where
  name : String
  parentLink : Option String
  childLink : String
  axis : Vector3
deriving DecidableEq, Repr

/-- Modelled from the spec: `Model`, a named entity with a world pose,
owning its links and joints. -/
structure Model where
  name : String
  worldPose : Pose
  links : List Link
  joints : List Joint
deriving DecidableEq, Repr

/-- Modelled from the spec: the configuration of the physics engine, a fixed
step time `dt` and a gravity vector. -/
structure PhysicsEngine where
  stepTime : ℚ
  gravity : Vector3
deriving DecidableEq, Repr

/-- Modelled from the spec: `World`, the ordered models, the physics
configuration and the simulation clock. -/
structure World where
  models : List Model
  physicsEngine : PhysicsEngine
  simTime : ℚ
deriving DecidableEq, Repr

/-- Modelled from the spec: capture of a collision. -/
def Collision.GetState (c : Collision) : CollisionState :=
  { name := c.name, pose := c.pose }

/-- Modelled from the spec: capture of a link and of its collisions. -/
def Link.GetState (l : Link) : LinkState :=
  { name := l.name, pose := l.worldPose, collisionStates := l.collisions.map Collision.GetState }

/-- Modelled from the spec: capture of a model and of its links. -/
def Model.GetState (m : Model) : ModelState :=
  { name := m.name, pose := m.worldPose, linkStates := m.links.map Link.GetState }

/-- Modelled from the spec: `World::GetState()` walks
World→Model→Link→Collision in insertion order and records the name and the
current pose of each entity. -/
def World.GetState (w : World) : WorldState :=
  { modelStates := w.models.map Model.GetState }

/-- Modelled from the spec: `WorldState::GetModelStateCount()`. -/
def WorldState.GetModelStateCount (s : WorldState) : ℕ := s.modelStates.length

/-- Modelled from the spec: `ModelState::GetLinkStateCount()`. -/
def ModelState.GetLinkStateCount (s : ModelState) : ℕ := s.linkStates.length

/-- Modelled from the spec: `LinkState::GetCollisionStateCount()`. -/
def LinkState.GetCollisionStateCount (s : LinkState) : ℕ := s.collisionStates.length

/-- Modelled from the spec: `WorldState::GetModelState(name)`, not found
when no model of that name existed at capture time. -/
def WorldState.GetModelState (s : WorldState) (name : String) : Option ModelState :=
  s.modelStates.find? fun ms => ms.name = name

/-- Modelled from the spec: `World::GetModel(name)`, a handle or null. -/
def World.GetModel (w : World) (name : String) : Option Model :=
  w.models.find? fun m => m.name = name

/-- Modelled from the spec: the step of `SetState` that "locates the live
entity by name and overwrites" it: the first live entity named as the
recorded state `st` is rewritten by `write st`; when there is none, nothing
changes. -/
def overwriteNamed {α σ : Type} (nameOf : α → String) (stateName : σ → String)
    (write : σ → α → α) (st : σ) : List α → List α
  | [] => []
  | a :: rest =>
      if nameOf a = stateName st then write st a :: rest
      else a :: overwriteNamed nameOf stateName write st rest

/-- Modelled from the spec: every recorded state of `sts`, in order, is
written onto the live entity of its name. -/
def restoreNamed {α σ : Type} (nameOf : α → String) (stateName : σ → String)
    (write : σ → α → α) (sts : List σ) (live : List α) : List α :=
  sts.foldl (fun l st => overwriteNamed nameOf stateName write st l) live

/-- Modelled from the spec: a recorded link state overwrites the world pose
of the link (and nothing else: velocity is not part of a snapshot). -/
def Link.SetState (st : LinkState) (l : Link) : Link :=
  { l with worldPose := st.pose }

/-- Modelled from the spec: a recorded model state overwrites the world pose
of the model and is passed on to the links it records. -/
def Model.SetState (st : ModelState) (m : Model) : Model :=
  { m with
    worldPose := st.pose
    links := restoreNamed Link.name LinkState.name Link.SetState st.linkStates m.links }

/-- Modelled from the spec: `World::SetState(snapshot)`: for each recorded
model (and link) the live entity is located by name and its world pose
overwritten; other live entities are left untouched. -/
def World.SetState (w : World) (s : WorldState) : World :=
  { w with
    models := restoreNamed Model.name ModelState.name Model.SetState s.modelStates w.models }

/-- Modelled from the spec: `Model::SetWorldPose(pose)`. -/
def Model.SetWorldPose (m : Model) (pose : Pose) : Model :=
  { m with worldPose := pose }

/-- The statement `world->GetModel(name)->SetWorldPose(pose)` of the test
(`physics.cc`, lines 70-71): it needs the handle to be non-null. -/
def World.SetModelWorldPose (w : World) (name : String) (pose : Pose) : Option World :=
  match w.GetModel name with
  | none => none
  | some _ =>
      some { w with
        models := overwriteNamed Model.name Prod.fst (fun c m => m.SetWorldPose c.2)
          (name, pose) w.models }

/-- A sequence of `SetWorldPose` calls, each on an existing model. -/
def World.SetModelWorldPoses (w : World) : List (String × Pose) → Option World
  | [] => some w
  | c :: rest =>
      match w.SetModelWorldPose c.1 c.2 with
      | none => none
      | some w1 => w1.SetModelWorldPoses rest

/-- The names and world poses of the live models, in order. -/
def World.modelPoses (w : World) : List (String × Pose) :=
  w.models.map fun m => (m.name, m.worldPose)

/-- The names and poses of the recorded models, in order. -/
def WorldState.modelPoses (s : WorldState) : List (String × Pose) :=
  s.modelStates.map fun ms => (ms.name, ms.pose)

/-- Modelled from the spec: the three phases of one step that act on the
entity graph, in the order of section 4.1: (a) free-body integration of all
links, (b) contact resolution, (c) joint constraints.  Their bodies are not
among the sources and the properties proved below hold for all of them. -/
structure Dynamics where
  integrate : PhysicsEngine → List Model → List Model
  resolveContacts : PhysicsEngine → List Model → List Model
  solveJoints : PhysicsEngine → List Model → List Model

/-- Modelled from the spec: one fixed-size step, phases (a), (b), (c) and
then (d) the clock advances by `dt`. -/
def World.step (D : Dynamics) (w : World) : World :=
  { w with
    models := D.solveJoints w.physicsEngine
      (D.resolveContacts w.physicsEngine (D.integrate w.physicsEngine w.models))
    simTime := w.simTime + w.physicsEngine.stepTime }

/-- Modelled from the spec: `n` sequential steps. -/
def World.steps (D : Dynamics) : ℕ → World → World
  | 0, w => w
  | n + 1, w => World.steps D n (w.step D)

/-- The failure of `StepWorld`. -/
inductive StepError where
  | invalidArgument
deriving DecidableEq, Repr

/-- Modelled from the spec: `World::StepWorld(n)`: a negative `n` is an
invalid-argument failure with no step executed, `n = 0` is a no-op, and
`n > 0` performs `n` sequential steps. -/
def World.StepWorld (D : Dynamics) (w : World) (n : ℤ) : Except StepError World :=
  if n < 0 then .error .invalidArgument else .ok (World.steps D n.toNat w)

/-- Modelled from the spec: `World::GetSimTime()`. -/
def World.GetSimTime (w : World) : ℚ := w.simTime

/-- As many successive calls `StepWorld(k)` as the count says. -/
def World.StepWorldRepeated (D : Dynamics) (k : ℤ) : ℕ → World → Except StepError World
  | 0, w => .ok w
  | n + 1, w =>
      match w.StepWorld D k with
      | .error e => .error e
      | .ok w1 => World.StepWorldRepeated D k n w1

/-- A model of one link of the same pose carrying one collision. -/
def shapeModel (name : String) (pose : Pose) : Model :=
  { name := name
    worldPose := pose
    links :=
      [ { name := "link", mass := 1, worldPose := pose, linearVel := ⟨0, 0, 0⟩,
          angularVel := ⟨0, 0, 0⟩,
          collisions := [{ name := "collision", pose := ⟨⟨0, 0, 0⟩, Quaternion.zeroEuler⟩ }] } ]
    joints := [] }

/-- The world of `worlds/shapes.world` as the `State` test reads it
(`physics.cc`, lines 54-67): plane at `(0, 0, 0)`, box at `(0, 0, 0.5)`,
sphere at `(0, 1.5, 0.5)` and cylinder at `(0, -1.5, 0.5)`. -/
def shapesWorld : World :=
  { models :=
      [ shapeModel "plane" ⟨⟨0, 0, 0⟩, Quaternion.zeroEuler⟩,
        shapeModel "box" ⟨⟨0, 0, 1 / 2⟩, Quaternion.zeroEuler⟩,
        shapeModel "sphere" ⟨⟨0, 3 / 2, 1 / 2⟩, Quaternion.zeroEuler⟩,
        shapeModel "cylinder" ⟨⟨0, -3 / 2, 1 / 2⟩, Quaternion.zeroEuler⟩ ]
    physicsEngine := { stepTime := 1 / 1000, gravity := ⟨0, 0, -981 / 100⟩ }
    simTime := 0 }

/-- The same world after line 70 of the test has moved the box to
`(1, 2, 0.5)`. -/
def movedWorld : World :=
  { shapesWorld with
    models :=
      [ shapeModel "plane" ⟨⟨0, 0, 0⟩, Quaternion.zeroEuler⟩,
        { shapeModel "box" ⟨⟨0, 0, 1 / 2⟩, Quaternion.zeroEuler⟩ with
          worldPose := ⟨⟨1, 2, 1 / 2⟩, Quaternion.zeroEuler⟩ },
        shapeModel "sphere" ⟨⟨0, 3 / 2, 1 / 2⟩, Quaternion.zeroEuler⟩,
        shapeModel "cylinder" ⟨⟨0, -3 / 2, 1 / 2⟩, Quaternion.zeroEuler⟩ ] }

/-- Dynamics under which nothing moves. -/
def restDynamics : Dynamics :=
  { integrate := fun _ ms => ms
    resolveContacts := fun _ ms => ms
    solveJoints := fun _ ms => ms }

end physics

/-! ## The world description tree (`sdf::Element`) -/

namespace sdf

/-- Modelled from the spec: an element of the "generic element tree" of a
world description, with what `CameraSensor::Load` reads of it: its name, its
string values and its parent (none for the root).  The header of
`sdf::Element` is not among the sources. -/
inductive Element where
  | mk (name : String) (values : List (String × String)) (parent : Option Element)

/-- The result of `Element::GetName()`. -/
def Element.GetName : Element → String
  | .mk n _ _ => n

/-- The result of `Element::GetParent()`, a pointer that may be null. -/
def Element.GetParent : Element → Option Element
  | .mk _ _ p => p

/-- The result of `Element::GetValueString(key)`: the value stored under
`key`, the empty string when there is none. -/
def Element.GetValueString : Element → String → String
  | .mk _ vs _, key => (vs.lookup key).getD ""

/-- The proper ancestors of an element, nearest first. -/
def Element.ancestors : Element → List Element
  | .mk _ _ none => []
  | .mk _ _ (some p) => p :: p.ancestors

end sdf

/-! ## `sensors::CameraSensor` (`src/sensors/CameraSensor.cc`) -/

namespace sensors

open sdf

/-- The calls `CameraSensor::Load` makes into the render engine and scene. -/
inductive RenderCall where
  | GetScene (worldName : String)
  | CreateScene (worldName : String)
  | CreateCamera (cameraName : String)
deriving DecidableEq, Repr

/-- The classes `CameraSensor.cc` calls into and whose bodies are not among
the sources, as parameters: `B` is the state of the `Sensor` base class, `R`
the state of the render engine, `S` a scene and `C` a camera.

* `SensorLoad` is `Sensor::Load()`, which reads the SDF element of the sensor;
* `GetOrCreateElement` is `sdf::Element::GetOrCreateElement`;
* `GetScene` and `CreateCamera` return pointers that `Load` tests for null;
  the pointer returned by `CreateScene` is dereferenced untested, so it is a
  scene;
* the remaining fields are the methods of `rendering::Camera` that `Load`
  calls. -/
structure Collaborators (B R S C : Type) where
  SensorLoad : Element → B → B
  GetOrCreateElement : String → Element → Element
  GetScene : String → R → Option S
  CreateScene : String → R → S × R
  CreateCamera : S → String → R → Option C × R
  SetCaptureData : Bool → C → C
  CameraLoad : Element → C → C
  GetImageWidth : C → ℕ
  GetImageHeight : C → ℕ

/-- The handle `ConnectRenderSignal` returns: the position of the callback in
the render signal. -/
structure Connection where
  slot : ℕ
deriving DecidableEq, Repr

/-- The members of a camera sensor that `CameraSensor.cc` names (`sdf`,
`typeName`, `connections`, `camera`, `ogreTextureName`) and, in `base`, the
rest of the `Sensor` base class. -/
structure CameraSensor (B C : Type) where
  base : B
  sdf : Element
  typeName : String
  connections : List Connection
  camera : Option C
  ogreTextureName : String

/-- What a render callback can reach: the sensor it is bound to, the render
engine and the world. -/
structure Sim (B R C W : Type) where
  sensor : CameraSensor B C
  engine : R
  world : W

/-- The render signal of `event::Events`: the callbacks connected to it. -/
structure Events (B R C W : Type) where
  renderSignal : List (Sim B R C W → Sim B R C W)

/-- The function `Events::ConnectRenderSignal`: the callback is added to the
signal and a handle to it returned. -/
def Events.ConnectRenderSignal {B R C W : Type} (ev : Events B R C W)
    (cb : Sim B R C W → Sim B R C W) : Connection × Events B R C W :=
  ({ slot := ev.renderSignal.length }, { renderSignal := ev.renderSignal ++ [cb] })

/-- The method `CameraSensor::Render()` (lines 142-151): every statement of
its body is commented out. -/
def CameraSensor.Render {B R C W : Type} (st : Sim B R C W) : Sim B R C W :=
  st

/-- The constructor (lines 42-48), run on the sensor `s0` that the `Sensor()`
base constructor left: it sets `typeName` and connects `Render` to the render
signal, keeping the connection. -/
def CameraSensor.new {B R C W : Type} (s0 : CameraSensor B C) (ev : Events B R C W) :
    CameraSensor B C × Events B R C W :=
  let r := ev.ConnectRenderSignal CameraSensor.Render
  ({ s0 with typeName := "monocamera", connections := s0.connections ++ [r.1] }, r.2)

/-- The loop of lines 74-77,
`while (sdfParent && sdfParent->GetName() != "world") sdfParent = sdfParent->GetParent();`,
as a function of the initial `sdfParent`; its result is `sdfParent` after the
loop. -/
def findWorld : Option Element → Option Element
  | none => none
  | some e => if e.GetName ≠ "world" then findWorld e.GetParent else some e
termination_by p => sizeOf p
decreasing_by
  simp_wf
  cases e
  simp only [Element.GetParent, Element.mk.sizeOf_spec]
  omega

/-- How a call of `Load` ends: it returns, or `gzthrow` raises. -/
inductive Outcome where
  | returned
  | threw (msg : String)
deriving DecidableEq, Repr

/-- The sensor and render engine after `Load`, the messages written to
`gzerr`, the calls made into the render engine, and how the call ended. -/
structure LoadResult (B R C : Type) where
  sensor : CameraSensor B C
  engine : R
  errors : List String
  calls : List RenderCall
  outcome : Outcome

/-- Lines 87-89: the scene of the world is looked up and, when there is
none, created. -/
def getOrCreateScene {B R S C : Type} (env : Collaborators B R S C) (worldName : String)
    (engine : R) : S × R × List RenderCall :=
  match env.GetScene worldName engine with
  | some scene => (scene, engine, [RenderCall.GetScene worldName])
  | none =>
      let r := env.CreateScene worldName engine
      (r.1, r.2, [RenderCall.GetScene worldName, RenderCall.CreateScene worldName])

/-- Lines 87-91: the scene is obtained and asked for the camera
`"mono_camera"`; the pointer it returns may be null. -/
def createCamera {B R S C : Type} (env : Collaborators B R S C) (worldName : String)
    (engine : R) : Option C × R × List RenderCall :=
  let sc := getOrCreateScene env worldName engine
  let cc := env.CreateCamera sc.1 "mono_camera" sc.2.1
  (cc.1, cc.2, sc.2.2 ++ [RenderCall.CreateCamera "mono_camera"])

/-- Lines 97-100: `SetCaptureData(true)`, then the camera is loaded from the
`"camera"` child of the SDF element of the sensor. -/
def loadCamera {B R S C : Type} (env : Collaborators B R S C) (sdf : Element) (cam : C) : C :=
  env.CameraLoad (env.GetOrCreateElement "camera" sdf) (env.SetCaptureData true cam)

/-- The method `CameraSensor::Load()` (lines 67-108). -/
def CameraSensor.Load {B R S C : Type} (env : Collaborators B R S C) (s : CameraSensor B C)
    (engine : R) : LoadResult B R C :=
  -- line 69, the call of the base class method
  let s1 := { s with base := env.SensorLoad s.sdf s.base }
  -- lines 73-77
  match findWorld s1.sdf.GetParent with
  | none =>
      -- lines 79-83
      { sensor := s1, engine := engine,
        errors := ["Unable to get camera sensor world name\n"],
        calls := [], outcome := .returned }
  | some sdfParent =>
      -- line 85
      let worldName := sdfParent.GetValueString "name"
      -- lines 87-91
      let cc := createCamera env worldName engine
      match cc.1 with
      | none =>
          -- lines 92-96
          { sensor := { s1 with camera := none }, engine := cc.2.1,
            errors := ["Unable to create camera sensor[mono_camera]\n"],
            calls := cc.2.2, outcome := .returned }
      | some cam =>
          -- lines 97-100
          let cam2 := loadCamera env s1.sdf cam
          let s2 := { s1 with camera := some cam2 }
          -- lines 103-107
          if env.GetImageWidth cam2 = 0 ∨ env.GetImageHeight cam2 = 0 then
            { sensor := s2, engine := cc.2.1, errors := [], calls := cc.2.2,
              outcome := .threw "image has zero size" }
          else
            { sensor := s2, engine := cc.2.1, errors := [], calls := cc.2.2,
              outcome := .returned }

/-- A camera as far as `Load` looks at it. -/
structure PlainCamera where
  captureData : Bool
  imageWidth : ℕ
  imageHeight : ℕ
deriving DecidableEq, Repr

/-- A concrete set of collaborators: the base class counts how often its
`Load` has run, the render engine is the list of the names of its scenes, a
scene is its name, and loading a camera gives it the size 640 by 480. -/
def plainEnv : Collaborators ℕ (List String) String PlainCamera where
  SensorLoad := fun _ n => n + 1
  GetOrCreateElement := fun name e => Element.mk name [] (some e)
  GetScene := fun name scenes => if name ∈ scenes then some name else none
  CreateScene := fun name scenes => (name, scenes ++ [name])
  CreateCamera := fun _ _ scenes =>
    (some { captureData := false, imageWidth := 0, imageHeight := 0 }, scenes)
  SetCaptureData := fun b c => { c with captureData := b }
  CameraLoad := fun _ c => { c with imageWidth := 640, imageHeight := 480 }
  GetImageWidth := fun c => c.imageWidth
  GetImageHeight := fun c => c.imageHeight

/-- The same collaborators, except that loading a camera leaves it at the
size 0 by 0 it was created with. -/
def zeroSizeEnv : Collaborators ℕ (List String) String PlainCamera :=
  { plainEnv with CameraLoad := fun _ c => c }

/-- A world named `"outer"`, directly under the root of the description. -/
def outerWorld : Element :=
  Element.mk "world" [("name", "outer")] (some (Element.mk "gazebo" [("version", "1.0")] none))

/-- A world named `"inner"`, placed inside `outerWorld`. -/
def innerWorld : Element :=
  Element.mk "world" [("name", "inner")] (some outerWorld)

/-- A sensor whose own element is named `"world"`, in a model of
`innerWorld`. -/
def nestedSensor : CameraSensor ℕ PlainCamera :=
  { base := 0
    sdf := Element.mk "world" [("name", "own")]
      (some (Element.mk "model" [("name", "m")] (some innerWorld)))
    typeName := "monocamera", connections := [⟨0⟩], camera := none, ogreTextureName := "" }

end sensors

/-! ### Properties of binary64 rounding -/

namespace ieee

theorem floor_le_roundHalfEven (r : ℚ) : ⌊r⌋ ≤ roundHalfEven r := by
  unfold roundHalfEven
  split_ifs <;> omega

theorem roundHalfEven_le_floor_succ (r : ℚ) : roundHalfEven r ≤ ⌊r⌋ + 1 := by
  unfold roundHalfEven
  split_ifs <;> omega

theorem roundHalfEven_of_abs_sub_lt (r : ℚ) (n : ℤ) (h : |r - n| < 1 / 2) :
    roundHalfEven r = n := by
  rw [abs_lt] at h
  by_cases hn : (n : ℚ) ≤ r
  · have hf : ⌊r⌋ = n := Int.floor_eq_iff.mpr ⟨hn, by linarith⟩
    unfold roundHalfEven
    rw [hf, if_pos (by linarith)]
  · have hf : ⌊r⌋ = n - 1 := Int.floor_eq_iff.mpr ⟨by push_cast; linarith, by push_cast; linarith⟩
    unfold roundHalfEven
    rw [hf, if_neg (by push_cast; linarith), if_pos (by push_cast; linarith)]
    ring

theorem roundHalfEven_intCast (n : ℤ) : roundHalfEven n = n :=
  roundHalfEven_of_abs_sub_lt _ n (by simp)

theorem roundHalfEven_mono {r s : ℚ} (h : r ≤ s) : roundHalfEven r ≤ roundHalfEven s := by
  rcases (Int.floor_mono h).lt_or_eq with hlt | heq
  · calc roundHalfEven r ≤ ⌊r⌋ + 1 := roundHalfEven_le_floor_succ r
      _ ≤ ⌊s⌋ := hlt
      _ ≤ roundHalfEven s := floor_le_roundHalfEven s
  · unfold roundHalfEven
    rw [← heq]
    split_ifs <;> first | omega | (exfalso; linarith)

theorem le_roundHalfEven {r : ℚ} {n : ℤ} (h : (n : ℚ) ≤ r) : n ≤ roundHalfEven r := by
  have := roundHalfEven_mono h
  rwa [roundHalfEven_intCast] at this

theorem roundHalfEven_le {r : ℚ} {n : ℤ} (h : r ≤ (n : ℚ)) : roundHalfEven r ≤ n := by
  have := roundHalfEven_mono h
  rwa [roundHalfEven_intCast] at this

theorem two_zpow_pos (e : ℤ) : (0 : ℚ) < 2 ^ e := zpow_pos (by norm_num) e

theorem two_zpow_mono {a b : ℤ} (h : a ≤ b) : (2 : ℚ) ^ a ≤ 2 ^ b :=
  zpow_le_zpow_right₀ (by norm_num) h

theorem ulpExponent_add (x : ℚ) : ulpExponent x + 52 = max (Int.log 2 x) (-1022) := by
  unfold ulpExponent; ring

/-- A positive `x` lies below the top of its binade. -/
theorem lt_two_zpow_ulpExponent (x : ℚ) : x < 2 ^ (ulpExponent x + 53) := by
  have h := Int.lt_zpow_succ_log_self (R := ℚ) (b := 2) (by norm_num) x
  rw [Nat.cast_ofNat] at h
  refine lt_of_lt_of_le h (two_zpow_mono ?_)
  have := ulpExponent_add x
  have := le_max_left (Int.log 2 x) (-1022)
  omega

/-- A positive `x` in the normal range lies above the bottom of its binade. -/
theorem two_zpow_ulpExponent_le {x : ℚ} (hx : 0 < x) (hn : -1022 ≤ Int.log 2 x) :
    (2 : ℚ) ^ (ulpExponent x + 52) ≤ x := by
  have h := Int.zpow_log_le_self (R := ℚ) (b := 2) (by norm_num) hx
  rw [Nat.cast_ofNat] at h
  rw [ulpExponent_add, max_eq_left hn]
  exact h

theorem div_ulp_lt (x : ℚ) : x / 2 ^ ulpExponent x < ((2 ^ 53 : ℤ) : ℚ) := by
  rw [div_lt_iff₀ (two_zpow_pos _)]
  have h := lt_two_zpow_ulpExponent x
  rw [add_comm, zpow_add₀ (by norm_num)] at h
  push_cast
  exact_mod_cast h

theorem le_div_ulp {x : ℚ} (hx : 0 < x) (hn : -1022 ≤ Int.log 2 x) :
    ((2 ^ 52 : ℤ) : ℚ) ≤ x / 2 ^ ulpExponent x := by
  rw [le_div_iff₀ (two_zpow_pos _)]
  have h := two_zpow_ulpExponent_le hx hn
  rw [add_comm, zpow_add₀ (by norm_num)] at h
  push_cast
  exact_mod_cast h

theorem roundMagnitude_zero : roundMagnitude 0 = 0 := by
  have h : roundHalfEven 0 = 0 := by
    have := roundHalfEven_intCast 0
    simpa using this
  simp [roundMagnitude, h]

theorem roundMagnitude_nonneg {x : ℚ} (hx : 0 ≤ x) : 0 ≤ roundMagnitude x := by
  unfold roundMagnitude
  have h0 : (0 : ℤ) ≤ roundHalfEven (x / 2 ^ ulpExponent x) :=
    le_roundHalfEven (by simpa using div_nonneg hx (two_zpow_pos _).le)
  exact mul_nonneg (by exact_mod_cast h0) (two_zpow_pos _).le

theorem roundMagnitude_le (x : ℚ) : roundMagnitude x ≤ 2 ^ (ulpExponent x + 53) := by
  unfold roundMagnitude
  have h : roundHalfEven (x / 2 ^ ulpExponent x) ≤ 2 ^ 53 := roundHalfEven_le (div_ulp_lt x).le
  have h2 : ((roundHalfEven (x / 2 ^ ulpExponent x) : ℤ) : ℚ) ≤ 2 ^ (53 : ℤ) := by
    exact_mod_cast h
  calc ((roundHalfEven (x / 2 ^ ulpExponent x) : ℤ) : ℚ) * 2 ^ ulpExponent x
      ≤ 2 ^ (53 : ℤ) * 2 ^ ulpExponent x :=
        mul_le_mul_of_nonneg_right h2 (two_zpow_pos _).le
    _ = 2 ^ (ulpExponent x + 53) := by rw [add_comm, zpow_add₀ (by norm_num)]

theorem le_roundMagnitude {x : ℚ} (hx : 0 < x) (hn : -1022 ≤ Int.log 2 x) :
    (2 : ℚ) ^ (ulpExponent x + 52) ≤ roundMagnitude x := by
  unfold roundMagnitude
  have h : 2 ^ 52 ≤ roundHalfEven (x / 2 ^ ulpExponent x) := le_roundHalfEven (le_div_ulp hx hn)
  have h2 : (2 : ℚ) ^ (52 : ℤ) ≤ ((roundHalfEven (x / 2 ^ ulpExponent x) : ℤ) : ℚ) := by
    exact_mod_cast h
  calc (2 : ℚ) ^ (ulpExponent x + 52) = 2 ^ (52 : ℤ) * 2 ^ ulpExponent x := by
        rw [add_comm, zpow_add₀ (by norm_num)]
    _ ≤ _ := mul_le_mul_of_nonneg_right h2 (two_zpow_pos _).le

theorem ulpExponent_mono {x y : ℚ} (hx : 0 < x) (h : x ≤ y) : ulpExponent x ≤ ulpExponent y := by
  unfold ulpExponent
  have := Int.log_mono_right (b := 2) hx h
  omega

theorem roundMagnitude_mono {x y : ℚ} (hx : 0 ≤ x) (h : x ≤ y) :
    roundMagnitude x ≤ roundMagnitude y := by
  rcases hx.lt_or_eq with hpos | h0
  · rcases (ulpExponent_mono hpos h).lt_or_eq with hlt | heq
    · have hn : -1022 ≤ Int.log 2 y := by
        have h1 := ulpExponent_add x
        have h2 := ulpExponent_add y
        have h3 := le_max_right (Int.log 2 x) (-1022)
        rcases max_cases (Int.log 2 y) (-1022) with ⟨h4, h5⟩ | ⟨h4, _⟩
        · exact h5
        · omega
      calc roundMagnitude x ≤ 2 ^ (ulpExponent x + 53) := roundMagnitude_le x
        _ ≤ 2 ^ (ulpExponent y + 52) := two_zpow_mono (by omega)
        _ ≤ roundMagnitude y := le_roundMagnitude (lt_of_lt_of_le hpos h) hn
    · unfold roundMagnitude
      rw [heq]
      have hm : roundHalfEven (x / 2 ^ ulpExponent y) ≤ roundHalfEven (y / 2 ^ ulpExponent y) :=
        roundHalfEven_mono (div_le_div_of_nonneg_right h (two_zpow_pos _).le)
      exact mul_le_mul_of_nonneg_right (by exact_mod_cast hm) (two_zpow_pos _).le
  · rw [← h0, roundMagnitude_zero]
    exact roundMagnitude_nonneg (hx.trans h)

/-- A value that is a whole number of units in the last place is kept. -/
theorem roundMagnitude_of_int {y : ℚ} (k : ℤ) (h : y / 2 ^ ulpExponent y = k) :
    roundMagnitude y = y := by
  unfold roundMagnitude
  rw [h, roundHalfEven_intCast, ← h]
  exact div_mul_cancel₀ _ (two_zpow_pos _).ne'

theorem roundMagnitude_idem {x : ℚ} (hx : 0 ≤ x) :
    roundMagnitude (roundMagnitude x) = roundMagnitude x := by
  have hy0 : 0 ≤ roundMagnitude x := roundMagnitude_nonneg hx
  rcases hy0.lt_or_eq with hpos | h0
  swap
  · rw [← h0, roundMagnitude_zero]
  have hle : roundMagnitude x ≤ 2 ^ (ulpExponent x + 53) := roundMagnitude_le x
  have hlog : Int.log 2 (roundMagnitude x) ≤ ulpExponent x + 53 := by
    have h := Int.log_mono_right (b := 2) hpos hle
    have h2 := Int.log_zpow (R := ℚ) (b := 2) (by norm_num) (ulpExponent x + 53)
    rw [Nat.cast_ofNat] at h2
    rwa [h2] at h
  have hx52 := ulpExponent_add x
  have hy52 := ulpExponent_add (roundMagnitude x)
  have hxm := le_max_right (Int.log 2 x) (-1022)
  rcases le_or_lt (ulpExponent (roundMagnitude x)) (ulpExponent x) with hcase | hcase
  · -- the unit in the last place did not grow
    obtain ⟨d, hd⟩ : ∃ d : ℕ, ulpExponent x = ulpExponent (roundMagnitude x) + d :=
      ⟨(ulpExponent x - ulpExponent (roundMagnitude x)).toNat, by omega⟩
    refine roundMagnitude_of_int
      (roundHalfEven (x / 2 ^ ulpExponent x) * 2 ^ d) ?_
    have key : (2 : ℚ) ^ ulpExponent x = 2 ^ ulpExponent (roundMagnitude x) * 2 ^ d := by
      rw [hd, zpow_add₀ (by norm_num : (2 : ℚ) ≠ 0), zpow_natCast]
    rw [div_eq_iff (two_zpow_pos _).ne']
    calc roundMagnitude x
        = (roundHalfEven (x / 2 ^ ulpExponent x) : ℚ) * 2 ^ ulpExponent x := rfl
      _ = (roundHalfEven (x / 2 ^ ulpExponent x) : ℚ)
            * (2 ^ ulpExponent (roundMagnitude x) * 2 ^ d) := by rw [key]
      _ = _ := by push_cast; ring
  · -- the value was rounded up to the next power of two
    have hmax : max (Int.log 2 (roundMagnitude x)) (-1022) = ulpExponent x + 53 := by
      rcases max_cases (Int.log 2 (roundMagnitude x)) (-1022) with ⟨h4, _⟩ | ⟨h4, _⟩ <;> omega
    have hlogeq : Int.log 2 (roundMagnitude x) = ulpExponent x + 53 := by
      rcases max_cases (Int.log 2 (roundMagnitude x)) (-1022) with ⟨h4, _⟩ | ⟨h4, _⟩ <;> omega
    have hge : (2 : ℚ) ^ (ulpExponent x + 53) ≤ roundMagnitude x := by
      have h := Int.zpow_log_le_self (R := ℚ) (b := 2) (by norm_num) hpos
      rwa [Nat.cast_ofNat, hlogeq] at h
    have hyeq : roundMagnitude x = 2 ^ (ulpExponent x + 53) := le_antisymm hle hge
    have he : ulpExponent (roundMagnitude x) = ulpExponent x + 1 := by omega
    refine roundMagnitude_of_int (2 ^ 52) ?_
    rw [div_eq_iff (two_zpow_pos _).ne', he]
    conv_lhs => rw [hyeq]
    rw [show ulpExponent x + 53 = 52 + (ulpExponent x + 1) by ring,
      zpow_add₀ (by norm_num : (2 : ℚ) ≠ 0)]
    norm_num

theorem binary64_zero : binary64 0 = 0 := by
  simp [binary64, roundMagnitude_zero]

theorem binary64_of_nonneg {x : ℚ} (hx : 0 ≤ x) : binary64 x = roundMagnitude x := by
  simp [binary64, not_lt.mpr hx]

theorem binary64_of_neg {x : ℚ} (hx : x < 0) : binary64 x = -roundMagnitude (-x) := by
  simp [binary64, hx]

theorem binary64_nonneg {x : ℚ} (hx : 0 ≤ x) : 0 ≤ binary64 x := by
  rw [binary64_of_nonneg hx]; exact roundMagnitude_nonneg hx

theorem binary64_nonpos {x : ℚ} (hx : x ≤ 0) : binary64 x ≤ 0 := by
  rcases hx.lt_or_eq with h | h
  · rw [binary64_of_neg h]
    exact neg_nonpos.mpr (roundMagnitude_nonneg (by linarith))
  · rw [h, binary64_zero]

theorem binary64_mono {x y : ℚ} (h : x ≤ y) : binary64 x ≤ binary64 y := by
  rcases lt_or_le y 0 with hy | hy
  · have hx : x < 0 := lt_of_le_of_lt h hy
    rw [binary64_of_neg hx, binary64_of_neg hy, neg_le_neg_iff]
    exact roundMagnitude_mono (by linarith) (by linarith)
  · rcases lt_or_le x 0 with hx | hx
    · exact (binary64_nonpos hx.le).trans (binary64_nonneg hy)
    · rw [binary64_of_nonneg hx, binary64_of_nonneg hy]
      exact roundMagnitude_mono hx h

theorem binary64_idem (x : ℚ) : binary64 (binary64 x) = binary64 x := by
  rcases lt_or_le x 0 with hx | hx
  · have hm : 0 ≤ roundMagnitude (-x) := roundMagnitude_nonneg (by linarith)
    rw [binary64_of_neg hx]
    rcases hm.lt_or_eq with hpos | h0
    · rw [binary64_of_neg (by linarith), neg_neg, roundMagnitude_idem (by linarith)]
    · rw [← h0, neg_zero, binary64_zero]
  · rw [binary64_of_nonneg hx, binary64_of_nonneg (roundMagnitude_nonneg hx),
      roundMagnitude_idem hx]

/-- Evaluation of the rounding of a positive value whose binade is known. -/
theorem roundMagnitude_eq {x : ℚ} (e : ℤ) (n : ℤ) (he : -1022 ≤ e)
    (hlo : (2 : ℚ) ^ e ≤ x) (hhi : x < 2 ^ (e + 1))
    (hn : |x / 2 ^ (e - 52) - n| < 1 / 2) :
    roundMagnitude x = n * 2 ^ (e - 52) := by
  have hx : 0 < x := lt_of_lt_of_le (two_zpow_pos e) hlo
  have hlog : Int.log 2 x = e := by
    apply le_antisymm
    · have := (Int.lt_zpow_iff_log_lt (R := ℚ) (b := 2) (by norm_num) hx).mp
        (by rw [Nat.cast_ofNat]; exact hhi)
      omega
    · exact (Int.zpow_le_iff_le_log (R := ℚ) (b := 2) (by norm_num) hx).mp
        (by rw [Nat.cast_ofNat]; exact hlo)
  have hu : ulpExponent x = e - 52 := by
    unfold ulpExponent
    rw [hlog, max_eq_left he]
  unfold roundMagnitude
  rw [hu, roundHalfEven_of_abs_sub_lt _ n hn]

theorem binary64_isRounding : IsRounding binary64 :=
  { mono := fun _ _ h => binary64_mono h
    zero := binary64_zero
    idem := binary64_idem }

theorem id_isRounding : IsRounding (fun x : ℚ => x) :=
  { mono := fun _ _ h => h
    zero := rfl
    idem := fun _ => rfl }

/-- Evaluation of `binary64` at a positive value whose binade is known. -/
theorem binary64_eq_of_pos {x : ℚ} (e : ℤ) (n : ℤ) (he : -1022 ≤ e)
    (hlo : (2 : ℚ) ^ e ≤ x) (hhi : x < 2 ^ (e + 1))
    (hn : |x / 2 ^ (e - 52) - n| < 1 / 2) :
    binary64 x = n * 2 ^ (e - 52) := by
  rw [binary64_of_nonneg (le_trans (two_zpow_pos e).le hlo)]
  exact roundMagnitude_eq e n he hlo hhi hn

/-- Evaluation of `binary64` at a negative value whose binade is known. -/
theorem binary64_eq_of_neg {x : ℚ} (e : ℤ) (n : ℤ) (he : -1022 ≤ e)
    (hlo : (2 : ℚ) ^ e ≤ -x) (hhi : -x < 2 ^ (e + 1))
    (hn : |-x / 2 ^ (e - 52) - n| < 1 / 2) :
    binary64 x = -(n * 2 ^ (e - 52)) := by
  have hx : x < 0 := by
    have := lt_of_lt_of_le (two_zpow_pos e) hlo
    linarith
  rw [binary64_of_neg hx, roundMagnitude_eq e n he hlo hhi hn]

end ieee

/-! ### Properties of the free-fall reference loop -/

namespace DropStuff

theorem integrate_v (dt g : ℚ) (s : Vars) : (integrate dt g s).v = s.v + dt * g := rfl

theorem integrate_z (dt g : ℚ) (s : Vars) :
    (integrate dt g s).z = s.z + dt * (s.v + dt * g) := rfl

theorem integrate_flag (dt g : ℚ) (s : Vars) :
    (integrate dt g s).post_contact_correction = s.post_contact_correction := rfl

theorem updateFlag_v (s : Vars) : (updateFlag s).v = s.v := by
  unfold updateFlag; split <;> rfl

theorem updateFlag_z (s : Vars) : (updateFlag s).z = s.z := by
  unfold updateFlag; split <;> rfl

theorem updateFlag_flag (s : Vars) :
    (updateFlag s).post_contact_correction
      = (decide (s.z < 1 / 2) || s.post_contact_correction) := by
  unfold updateFlag
  split <;> simp_all

theorem varsAt_v (dt g : ℚ) (s0 : Vars) (k : ℕ) :
    (varsAt dt g s0 k).v = s0.v + k * dt * g := by
  induction k with
  | zero => simp [varsAt]
  | succ k ih =>
    simp only [varsAt, updateFlag_v, integrate_v, ih]
    push_cast; ring

theorem varsAt_z (dt g : ℚ) (s0 : Vars) (k : ℕ) :
    (varsAt dt g s0 k).z = s0.z + k * dt * s0.v + dt ^ 2 * g * k * (k + 1) / 2 := by
  induction k with
  | zero => simp [varsAt]
  | succ k ih =>
    simp only [varsAt, updateFlag_z, integrate_z, ih, varsAt_v]
    push_cast; ring

theorem refZ_eq (dt g : ℚ) (s0 : Vars) (i : ℕ) :
    refZ dt g s0 i = (varsAt dt g s0 (i + 1)).z := by
  simp [refZ, varsAt, updateFlag_z]

/-- The loop is the sequence of passes `0, 1, ..., n-1` over `varsAt`. -/
theorem loop_eq (dt g : ℚ) (reading : ℕ → Body → Option ℚ) (s0 : Vars) (n i : ℕ) :
    loop dt g reading n i (varsAt dt g s0 i)
      = (List.range n).flatMap fun k =>
          [Body.box, Body.sphere, Body.cylinder].map fun b =>
            (i + k, b, (reading (i + k) b).map fun pz =>
              (checkAt dt g s0 (i + k), (checkAt dt g s0 (i + k)).holds pz)) := by
  induction n generalizing i with
  | zero => simp [loop]
  | succ n ih =>
    have hstep : (iteration dt g (reading i) (varsAt dt g s0 i)).1 = varsAt dt g s0 (i + 1) := rfl
    rw [loop, hstep, ih (i + 1), List.range_succ_eq_map]
    simp only [List.flatMap_cons, List.flatMap_map, Nat.add_zero]
    congr 1
    · simp only [iteration, List.map_map, List.map_cons, List.map_nil, Function.comp,
        bodyBlock, checkAt, refZ, integrate_flag]
      congr 1 <;> [skip; congr 1 <;> [skip; congr 1]] <;>
        (cases reading i _ <;> rfl)
    · apply List.flatMap_congr
      intro k _
      simp [Nat.add_assoc, Nat.add_comm 1 k]

theorem refZ_test (dt : ℚ) (i : ℕ) :
    refZ dt g init i = 21 / 2 - 5 * dt ^ 2 * (i + 1) * (i + 2) := by
  rw [refZ_eq, varsAt_z]
  simp only [init, g]
  push_cast; ring

theorem refZ_succ_lt (dt : ℚ) (hdt : 0 < dt) (i : ℕ) :
    refZ dt g init (i + 1) < refZ dt g init i := by
  rw [refZ_test, refZ_test]
  have h2 : 0 < dt ^ 2 := by positivity
  have hi : (0 : ℚ) ≤ i := Nat.cast_nonneg i
  push_cast
  nlinarith [mul_nonneg h2.le hi]

theorem refZ_antitone (dt : ℚ) (hdt : 0 < dt) {i j : ℕ} (h : i ≤ j) :
    refZ dt g init j ≤ refZ dt g init i :=
  (strictAnti_nat_of_succ_lt (refZ_succ_lt dt hdt)).antitone h

/-- The flag at the start of pass `i` is set exactly when it was set at the
outset or an earlier pass computed a reference height below `0.5`. -/
theorem flag_iff (dt g : ℚ) (s0 : Vars) (i : ℕ) :
    (varsAt dt g s0 i).post_contact_correction = true
      ↔ s0.post_contact_correction = true ∨ ∃ j, j < i ∧ refZ dt g s0 j < 1 / 2 := by
  induction i with
  | zero => simp [varsAt]
  | succ i ih =>
    have hz : (integrate dt g (varsAt dt g s0 i)).z = refZ dt g s0 i := rfl
    simp only [varsAt, updateFlag_flag, integrate_flag, hz, Bool.or_eq_true,
      decide_eq_true_eq, ih]
    constructor
    · rintro (h | h | ⟨j, hj, hlt⟩)
      · exact Or.inr ⟨i, Nat.lt_succ_self i, h⟩
      · exact Or.inl h
      · exact Or.inr ⟨j, Nat.lt_succ_of_lt hj, hlt⟩
    · rintro (h | ⟨j, hj, hlt⟩)
      · exact Or.inr (Or.inl h)
      · rcases Nat.lt_succ_iff_lt_or_eq.mp hj with h | h
        · exact Or.inr (Or.inr ⟨j, h, hlt⟩)
        · subst h; exact Or.inl hlt

theorem flag_succ (dt g : ℚ) (s0 : Vars) (i : ℕ)
    (h : (varsAt dt g s0 i).post_contact_correction = true) :
    (varsAt dt g s0 (i + 1)).post_contact_correction = true := by
  simp [varsAt, updateFlag_flag, integrate_flag, h]

theorem selectCheck_resting_iff (z : ℚ) (flag : Bool) :
    selectCheck z flag = Check.resting ↔ z ≤ 1 / 2 ∧ flag = true := by
  unfold selectCheck
  split
  · rename_i h
    constructor
    · intro h1; cases h1
    · rintro ⟨h1, h2⟩
      rcases h with h | h
      · exact absurd h1 (not_le.mpr h)
      · rw [h2] at h; cases h
  · rename_i h
    simp only [not_or, not_lt, Bool.not_eq_false] at h
    exact ⟨fun _ => h, fun _ => rfl⟩

theorem selectCheck_trajectory_iff (z : ℚ) (flag : Bool) :
    selectCheck z flag = Check.trajectory z ↔ 1 / 2 < z ∨ flag = false := by
  unfold selectCheck
  split
  · rename_i h
    exact ⟨fun _ => h, fun _ => rfl⟩
  · rename_i h
    constructor
    · intro h1; cases h1
    · intro h1; exact absurd h1 h

theorem checkAt_resting_iff (dt g : ℚ) (s0 : Vars) (i : ℕ) :
    checkAt dt g s0 i = Check.resting
      ↔ refZ dt g s0 i ≤ 1 / 2
          ∧ (s0.post_contact_correction = true ∨ ∃ j, j < i ∧ refZ dt g s0 j < 1 / 2) := by
  rw [checkAt, selectCheck_resting_iff, flag_iff]

theorem checkAt_trajectory_iff (dt g : ℚ) (s0 : Vars) (i : ℕ) :
    checkAt dt g s0 i = Check.trajectory (refZ dt g s0 i)
      ↔ 1 / 2 < refZ dt g s0 i
          ∨ (s0.post_contact_correction = false ∧ ∀ j, j < i → 1 / 2 ≤ refZ dt g s0 j) := by
  rw [checkAt, selectCheck_trajectory_iff]
  have h := flag_iff dt g s0 i
  constructor
  · rintro (h1 | h1)
    · exact Or.inl h1
    · right
      rw [← Bool.not_eq_true, h, not_or] at h1
      refine ⟨by simpa using h1.1, fun j hj => ?_⟩
      by_contra hlt
      exact h1.2 ⟨j, hj, not_le.mp hlt⟩
  · rintro (h1 | ⟨h1, h2⟩)
    · exact Or.inl h1
    · right
      rw [← Bool.not_eq_true, h, not_or]
      refine ⟨by simp [h1], ?_⟩
      rintro ⟨j, hj, hlt⟩
      exact absurd (h2 j hj) (not_le.mpr hlt)

/-- What the test evaluates: in each pass below `steps`, for each body, the
expectation selected for that pass, on the reported height of the body. -/
theorem mem_run (dt : ℚ) (reading : ℕ → Body → Option ℚ) (i : ℕ) (b : Body)
    (r : Option (Check × Bool)) :
    (i, b, r) ∈ run dt reading
      ↔ i < (steps dt).toNat
          ∧ r = (reading i b).map fun pz =>
              (checkAt dt g init i, (checkAt dt g init i).holds pz) := by
  have h := loop_eq dt g reading init (steps dt).toNat 0
  simp only [varsAt, Nat.zero_add] at h
  rw [run, h]
  simp only [List.mem_flatMap, List.mem_range, List.mem_map, List.mem_cons,
    List.mem_singleton, List.not_mem_nil, or_false, Prod.mk.injEq]
  constructor
  · rintro ⟨k, hk, b1, _, rfl, rfl, rfl⟩
    exact ⟨hk, rfl⟩
  · rintro ⟨hk, rfl⟩
    exact ⟨i, hk, b, by cases b <;> simp, rfl, rfl, rfl⟩

/-- C2: one pass of the reference loop maps `(v, z)` to
`(v + dt*g, z + dt*(v + dt*g))` (the position update reads the updated
velocity), and so after `k` passes, in exact rational arithmetic,
`v = v0 + k*dt*g` and `z = z0 + k*dt*v0 + dt^2*g*k*(k+1)/2`; with the values of
the test (`z0 = 10.5`, `v0 = 0`, `g = -10`) this is
`z = 10.5 - 5*dt^2*k*(k+1)`. -/
theorem semi_implicit_euler_closed_form (z0 v0 gr dt : ℚ) (flag : Bool) (k : ℕ) :
    (integrate dt gr ⟨v0, z0, flag⟩).v = v0 + dt * gr
    ∧ (integrate dt gr ⟨v0, z0, flag⟩).z = z0 + dt * (v0 + dt * gr)
    ∧ (varsAt dt gr ⟨v0, z0, flag⟩ k).v = v0 + k * dt * gr
    ∧ (varsAt dt gr ⟨v0, z0, flag⟩ k).z
        = z0 + k * dt * v0 + dt ^ 2 * gr * k * (k + 1) / 2
    ∧ (varsAt dt g init k).z = 21 / 2 - 5 * dt ^ 2 * k * (k + 1) := by
  refine ⟨rfl, rfl, varsAt_v _ _ _ k, varsAt_z _ _ _ k, ?_⟩
  rw [varsAt_z]
  simp only [init, g]
  ring

/-- C3, as stated, fails: with `dt = 0.5` the loop runs three passes; the
third one (`i = 2`) computes the reference height `-4.5`, which has passed
`0.5`, and still compares every body with the reference trajectory, because
no earlier pass had set `post_contact_correction`. -/
theorem check_not_chosen_by_height_alone :
    (2 : ℤ) < steps (1 / 2)
    ∧ refZ (1 / 2) g init 2 = -9 / 2
    ∧ refZ (1 / 2) g init 2 ≤ 1 / 2
    ∧ checkAt (1 / 2) g init 2 = Check.trajectory (-9 / 2)
    ∧ checkAt (1 / 2) g init 2 ≠ Check.resting := by
  have h1 : refZ (1 / 2) g init 2 = -9 / 2 := by
    norm_num [refZ, varsAt, integrate, updateFlag, init, g]
  have h2 : checkAt (1 / 2) g init 2 = Check.trajectory (-9 / 2) := by
    norm_num [checkAt, refZ, varsAt, integrate, updateFlag, selectCheck, init, g]
  refine ⟨by norm_num [steps], h1, by rw [h1]; norm_num, h2, ?_⟩
  rw [h2]
  exact fun h => Check.noConfusion h

/-- C3, amended: in every pass `i` the expectation is the same for the three
bodies and is chosen by the reference height of that pass together with the
flag: a body is compared with the reference trajectory (tolerance `1e-4`)
exactly when the reference height is above `0.5` or no earlier pass computed a
reference height below `0.5`, and with the resting height `0.5` (tolerance
`1e-5`) exactly when the reference height is at most `0.5` and some earlier
pass computed a reference height below `0.5`. -/
theorem check_chosen_by_height_and_flag (dt : ℚ) (reading : ℕ → Body → Option ℚ) (i : ℕ) :
    (checkAt dt g init i = Check.trajectory (refZ dt g init i)
        ↔ 1 / 2 < refZ dt g init i ∨ ∀ j, j < i → 1 / 2 ≤ refZ dt g init j)
    ∧ (checkAt dt g init i = Check.resting
        ↔ refZ dt g init i ≤ 1 / 2 ∧ ∃ j, j < i ∧ refZ dt g init j < 1 / 2)
    ∧ (checkAt dt g init i = Check.trajectory (refZ dt g init i)
        ∨ checkAt dt g init i = Check.resting)
    ∧ (∀ (b : Body) (r : Option (Check × Bool)), (i, b, r) ∈ run dt reading →
        r = (reading i b).map fun pz =>
          (checkAt dt g init i, decide (|pz - (checkAt dt g init i).target|
            < (checkAt dt g init i).tolerance)))
    ∧ (Check.trajectory (refZ dt g init i)).target = refZ dt g init i
    ∧ (Check.trajectory (refZ dt g init i)).tolerance = 1 / 10000
    ∧ Check.resting.target = 1 / 2
    ∧ Check.resting.tolerance = 1 / 100000 := by
  refine ⟨?_, ?_, ?_, ?_, rfl, rfl, rfl, rfl⟩
  · rw [checkAt_trajectory_iff]
    simp [init]
  · rw [checkAt_resting_iff]
    simp [init]
  · unfold checkAt selectCheck
    split
    · exact Or.inl rfl
    · exact Or.inr rfl
  · intro b r h
    exact ((mem_run dt reading i b r).mp h).2

/-! #### The loop in rounded arithmetic -/

theorem integrateFl_id (dt g : ℚ) (s : Vars) :
    integrateFl (fun x => x) dt g s = integrate dt g s := rfl

theorem varsAtFl_id (dt g : ℚ) (s0 : Vars) (i : ℕ) :
    varsAtFl (fun x => x) dt g s0 i = varsAt dt g s0 i := by
  induction i with
  | zero => rfl
  | succ i ih => simp only [varsAtFl, varsAt, ih, integrateFl_id]

theorem integrateFl_flag (fl : ℚ → ℚ) (dt g : ℚ) (s : Vars) :
    (integrateFl fl dt g s).post_contact_correction = s.post_contact_correction := rfl

theorem refZFl_eq (fl : ℚ → ℚ) (dt g : ℚ) (s0 : Vars) (i : ℕ) :
    refZFl fl dt g s0 i = (varsAtFl fl dt g s0 (i + 1)).z := by
  simp [refZFl, varsAtFl, updateFlag_z]

/-- The rounded loop is the sequence of passes `0, 1, ..., n-1` over
`varsAtFl`. -/
theorem loopFl_eq (fl : ℚ → ℚ) (dt g : ℚ) (reading : ℕ → Body → Option ℚ) (s0 : Vars)
    (n i : ℕ) :
    loopFl fl dt g reading n i (varsAtFl fl dt g s0 i)
      = (List.range n).flatMap fun k =>
          [Body.box, Body.sphere, Body.cylinder].map fun b =>
            (i + k, b, (reading (i + k) b).map fun pz =>
              (checkAtFl fl dt g s0 (i + k), (checkAtFl fl dt g s0 (i + k)).holds pz)) := by
  induction n generalizing i with
  | zero => simp [loopFl]
  | succ n ih =>
    have hstep : (iterationFl fl dt g (reading i) (varsAtFl fl dt g s0 i)).1
        = varsAtFl fl dt g s0 (i + 1) := rfl
    rw [loopFl, hstep, ih (i + 1), List.range_succ_eq_map]
    simp only [List.flatMap_cons, List.flatMap_map, Nat.add_zero]
    congr 1
    · simp only [iterationFl, List.map_map, List.map_cons, List.map_nil, Function.comp,
        bodyBlock, checkAtFl, refZFl, integrateFl_flag]
      congr 1 <;> [skip; congr 1 <;> [skip; congr 1]] <;>
        (cases reading i _ <;> rfl)
    · apply List.flatMap_congr
      intro k _
      simp [Nat.add_assoc, Nat.add_comm 1 k]

theorem flagFl_iff (fl : ℚ → ℚ) (dt g : ℚ) (s0 : Vars) (i : ℕ) :
    (varsAtFl fl dt g s0 i).post_contact_correction = true
      ↔ s0.post_contact_correction = true ∨ ∃ j, j < i ∧ refZFl fl dt g s0 j < 1 / 2 := by
  induction i with
  | zero => simp [varsAtFl]
  | succ i ih =>
    have hz : (integrateFl fl dt g (varsAtFl fl dt g s0 i)).z = refZFl fl dt g s0 i := rfl
    simp only [varsAtFl, updateFlag_flag, integrateFl_flag, hz, Bool.or_eq_true,
      decide_eq_true_eq, ih]
    constructor
    · rintro (h | h | ⟨j, hj, hlt⟩)
      · exact Or.inr ⟨i, Nat.lt_succ_self i, h⟩
      · exact Or.inl h
      · exact Or.inr ⟨j, Nat.lt_succ_of_lt hj, hlt⟩
    · rintro (h | ⟨j, hj, hlt⟩)
      · exact Or.inr (Or.inl h)
      · rcases Nat.lt_succ_iff_lt_or_eq.mp hj with h | h
        · exact Or.inr (Or.inr ⟨j, h, hlt⟩)
        · subst h; exact Or.inl hlt

theorem flagFl_succ (fl : ℚ → ℚ) (dt g : ℚ) (s0 : Vars) (i : ℕ)
    (h : (varsAtFl fl dt g s0 i).post_contact_correction = true) :
    (varsAtFl fl dt g s0 (i + 1)).post_contact_correction = true := by
  simp [varsAtFl, updateFlag_flag, integrateFl_flag, h]

theorem checkAtFl_resting_iff (fl : ℚ → ℚ) (dt g : ℚ) (s0 : Vars) (i : ℕ) :
    checkAtFl fl dt g s0 i = Check.resting
      ↔ refZFl fl dt g s0 i ≤ 1 / 2
          ∧ (s0.post_contact_correction = true ∨ ∃ j, j < i ∧ refZFl fl dt g s0 j < 1 / 2) := by
  rw [checkAtFl, selectCheck_resting_iff, flagFl_iff]

/-- In rounded arithmetic the velocity of the test never becomes positive. -/
theorem varsAtFl_v_nonpos (fl : ℚ → ℚ) (hfl : ieee.IsRounding fl) (dt : ℚ) (hdt : 0 < dt)
    (i : ℕ) : (varsAtFl fl dt g init i).v ≤ 0 := by
  induction i with
  | zero => simp [varsAtFl, init]
  | succ i ih =>
    have hg : fl (dt * g) ≤ 0 := by
      have h := hfl.mono (dt * g) 0 (by simp only [g]; nlinarith)
      rwa [hfl.zero] at h
    have h := hfl.mono ((varsAtFl fl dt g init i).v + fl (dt * g)) 0 (by linarith)
    rw [hfl.zero] at h
    simpa [varsAtFl, updateFlag_v, integrateFl] using h

/-- In rounded arithmetic the height of the test is always a value that
rounding keeps. -/
theorem varsAtFl_z_fixed (fl : ℚ → ℚ) (hfl : ieee.IsRounding fl) (hz0 : fl (21 / 2) = 21 / 2)
    (dt : ℚ) (i : ℕ) : fl (varsAtFl fl dt g init i).z = (varsAtFl fl dt g init i).z := by
  cases i with
  | zero => simpa [varsAtFl, init] using hz0
  | succ i =>
    simp only [varsAtFl, updateFlag_z, integrateFl]
    exact hfl.idem _

theorem refZFl_succ_le (fl : ℚ → ℚ) (hfl : ieee.IsRounding fl) (hz0 : fl (21 / 2) = 21 / 2)
    (dt : ℚ) (hdt : 0 < dt) (i : ℕ) :
    refZFl fl dt g init (i + 1) ≤ refZFl fl dt g init i := by
  have hv := varsAtFl_v_nonpos fl hfl dt hdt (i + 2)
  have hz := varsAtFl_z_fixed fl hfl hz0 dt (i + 1)
  rw [refZFl_eq fl dt g init i]
  have hstep : refZFl fl dt g init (i + 1)
      = fl ((varsAtFl fl dt g init (i + 1)).z + fl (dt * (varsAtFl fl dt g init (i + 2)).v)) := by
    simp [refZFl, varsAtFl, updateFlag_v, integrateFl]
  have hprod : fl (dt * (varsAtFl fl dt g init (i + 2)).v) ≤ 0 := by
    have h := hfl.mono (dt * (varsAtFl fl dt g init (i + 2)).v) 0 (by nlinarith)
    rwa [hfl.zero] at h
  rw [hstep]
  calc fl ((varsAtFl fl dt g init (i + 1)).z + fl (dt * (varsAtFl fl dt g init (i + 2)).v))
      ≤ fl (varsAtFl fl dt g init (i + 1)).z := hfl.mono _ _ (by linarith)
    _ = (varsAtFl fl dt g init (i + 1)).z := hz

theorem refZFl_antitone (fl : ℚ → ℚ) (hfl : ieee.IsRounding fl) (hz0 : fl (21 / 2) = 21 / 2)
    (dt : ℚ) (hdt : 0 < dt) {i j : ℕ} (h : i ≤ j) :
    refZFl fl dt g init j ≤ refZFl fl dt g init i :=
  antitone_nat_of_succ_le (refZFl_succ_le fl hfl hz0 dt hdt) h

theorem binary64_init_z : ieee.binary64 (21 / 2) = 21 / 2 := by
  rw [ieee.binary64_eq_of_pos 3 (21 * 2 ^ 48) (by norm_num) (by norm_num) (by norm_num)
    (by norm_num)]
  norm_num

/-- The first two passes of the test at `dt = 2^-28` in binary64 arithmetic:
the velocities are exact, and both heights round back to `10.5`. -/
theorem varsAtFl_stall :
    varsAtFl ieee.binary64 (1 / 2 ^ 28) g init 1
        = { v := -(10 / 2 ^ 28), z := 21 / 2, post_contact_correction := false }
    ∧ varsAtFl ieee.binary64 (1 / 2 ^ 28) g init 2
        = { v := -(20 / 2 ^ 28), z := 21 / 2, post_contact_correction := false } := by
  have hg : ieee.binary64 (1 / 2 ^ 28 * g) = -(10 / 2 ^ 28) := by
    rw [ieee.binary64_eq_of_neg (-25) (10 * 2 ^ 49) (by norm_num) (by norm_num [g])
      (by norm_num [g]) (by norm_num [g])]
    norm_num
  have hv1 : ieee.binary64 (-(10 / 2 ^ 28)) = -(10 / 2 ^ 28) := by
    rw [ieee.binary64_eq_of_neg (-25) (10 * 2 ^ 49) (by norm_num) (by norm_num)
      (by norm_num) (by norm_num)]
    norm_num
  have hp1 : ieee.binary64 (1 / 2 ^ 28 * -(10 / 2 ^ 28)) = -(10 / 2 ^ 56) := by
    rw [ieee.binary64_eq_of_neg (-53) (10 * 2 ^ 49) (by norm_num) (by norm_num)
      (by norm_num) (by norm_num)]
    norm_num
  have hz1 : ieee.binary64 (21 / 2 + -(10 / 2 ^ 56)) = 21 / 2 := by
    rw [ieee.binary64_eq_of_pos 3 (21 * 2 ^ 48) (by norm_num) (by norm_num) (by norm_num)
      (by norm_num [abs_lt])]
    norm_num
  have hv2 : ieee.binary64 (-(10 / 2 ^ 28) + -(10 / 2 ^ 28)) = -(20 / 2 ^ 28) := by
    rw [ieee.binary64_eq_of_neg (-24) (20 * 2 ^ 48) (by norm_num) (by norm_num)
      (by norm_num) (by norm_num)]
    norm_num
  have hp2 : ieee.binary64 (1 / 2 ^ 28 * -(20 / 2 ^ 28)) = -(20 / 2 ^ 56) := by
    rw [ieee.binary64_eq_of_neg (-52) (20 * 2 ^ 48) (by norm_num) (by norm_num)
      (by norm_num) (by norm_num)]
    norm_num
  have hz2 : ieee.binary64 (21 / 2 + -(20 / 2 ^ 56)) = 21 / 2 := by
    rw [ieee.binary64_eq_of_pos 3 (21 * 2 ^ 48) (by norm_num) (by norm_num) (by norm_num)
      (by norm_num [abs_lt])]
    norm_num
  have h1 : varsAtFl ieee.binary64 (1 / 2 ^ 28) g init 1
      = { v := -(10 / 2 ^ 28), z := 21 / 2, post_contact_correction := false } := by
    have hi : integrateFl ieee.binary64 (1 / 2 ^ 28) g init
        = { v := -(10 / 2 ^ 28), z := 21 / 2, post_contact_correction := false } := by
      simp only [integrateFl, init, zero_add, hg, hv1, hp1, hz1]
    simp only [varsAtFl, hi, updateFlag]
    norm_num
  refine ⟨h1, ?_⟩
  have hi : integrateFl ieee.binary64 (1 / 2 ^ 28) g
      { v := -(10 / 2 ^ 28), z := 21 / 2, post_contact_correction := false }
      = { v := -(20 / 2 ^ 28), z := 21 / 2, post_contact_correction := false } := by
    simp only [integrateFl, hg, hv2, hp2, hz2]
  rw [varsAtFl, h1, hi]
  simp only [updateFlag]
  norm_num

/-- C8, as stated, fails in its first part: in the `double` arithmetic of the
test the reference height need not strictly decrease.  At `dt = 2^-28` (a
`double`; `steps` is 402653184, which fits an `int`) the decrements
`dt * v` of the first two passes are `-10 * 2^-56` and `-20 * 2^-56`, less than
half a unit in the last place of `10.5`, and both passes compute the
reference height `10.5` again. -/
theorem reference_height_can_stall :
    (0 : ℚ) < 1 / 2 ^ 28
    ∧ ieee.binary64 (1 / 2 ^ 28) = 1 / 2 ^ 28
    ∧ stepsFl ieee.binary64 (1 / 2 ^ 28) = 402653184
    ∧ refZFl ieee.binary64 (1 / 2 ^ 28) g init 0 = 21 / 2
    ∧ refZFl ieee.binary64 (1 / 2 ^ 28) g init 1 = 21 / 2
    ∧ ¬ refZFl ieee.binary64 (1 / 2 ^ 28) g init 1 < refZFl ieee.binary64 (1 / 2 ^ 28) g init 0 := by
  have hdt : ieee.binary64 (1 / 2 ^ 28) = 1 / 2 ^ 28 := by
    rw [ieee.binary64_eq_of_pos (-28) (2 ^ 52) (by norm_num) (by norm_num) (by norm_num)
      (by norm_num)]
    norm_num
  have hq : ieee.binary64 (3 / 2 / (1 / 2 ^ 28)) = 402653184 := by
    rw [ieee.binary64_eq_of_pos 28 (3 * 2 ^ 51) (by norm_num) (by norm_num) (by norm_num)
      (by norm_num)]
    norm_num
  have h0 : refZFl ieee.binary64 (1 / 2 ^ 28) g init 0 = 21 / 2 := by
    rw [refZFl_eq, varsAtFl_stall.1]
  have h1 : refZFl ieee.binary64 (1 / 2 ^ 28) g init 1 = 21 / 2 := by
    rw [refZFl_eq, varsAtFl_stall.2]
  refine ⟨by norm_num, hdt, ?_, h0, h1, ?_⟩
  · rw [stepsFl, hq]
    norm_num
  · rw [h0, h1]
    exact lt_irrefl _

/-- C8, amended: for `dt > 0` and the values of the test, in arithmetic
that rounds every result (with a rounding that keeps the order, zero, its own
values and `10.5`, as rounding to `double` does) the reference height never
increases from pass to pass, and in exact arithmetic (no rounding, where the
loop is the one of `integrate`) it strictly decreases;
the flag, once set, stays set; once a pass compares with the resting height,
every later pass does; and pass `i` compares with the resting height exactly
when `i` has a predecessor whose reference height was below `0.5`. -/
theorem regime_never_reverts (fl : ℚ → ℚ) (hfl : ieee.IsRounding fl)
    (hz0 : fl (21 / 2) = 21 / 2) (dt : ℚ) (hdt : 0 < dt) :
    (∀ i, refZFl fl dt g init (i + 1) ≤ refZFl fl dt g init i)
    ∧ (∀ i, refZFl (fun x => x) dt g init i = refZ dt g init i)
    ∧ (∀ i, refZ dt g init (i + 1) < refZ dt g init i)
    ∧ (∀ i j, i ≤ j → (varsAtFl fl dt g init i).post_contact_correction = true →
        (varsAtFl fl dt g init j).post_contact_correction = true)
    ∧ (∀ i j, i < j → checkAtFl fl dt g init i = Check.resting →
        checkAtFl fl dt g init j = Check.resting)
    ∧ (∀ i, checkAtFl fl dt g init i = Check.resting
        ↔ ∃ p, i = p + 1 ∧ refZFl fl dt g init p < 1 / 2) := by
  refine ⟨refZFl_succ_le fl hfl hz0 dt hdt, fun i => ?_, refZ_succ_lt dt hdt, ?_, ?_, ?_⟩
  · rw [refZFl_eq, refZ_eq, varsAtFl_id]
  · intro i j hij h
    induction j, hij using Nat.le_induction with
    | base => exact h
    | succ j _ ih => exact flagFl_succ fl dt g init j ih
  · intro i j hij h
    rw [checkAtFl_resting_iff] at h ⊢
    obtain ⟨hz, hflag⟩ := h
    refine ⟨le_trans (refZFl_antitone fl hfl hz0 dt hdt hij.le) hz, ?_⟩
    rcases hflag with hf | ⟨p, hp, hlt⟩
    · exact Or.inl hf
    · exact Or.inr ⟨p, lt_trans hp hij, hlt⟩
  · intro i
    rw [checkAtFl_resting_iff]
    constructor
    · rintro ⟨_, hf | ⟨j, hj, hlt⟩⟩
      · simp [init] at hf
      · obtain ⟨p, rfl⟩ : ∃ p, i = p + 1 := ⟨i - 1, by omega⟩
        exact ⟨p, rfl,
          lt_of_le_of_lt (refZFl_antitone fl hfl hz0 dt hdt (Nat.lt_succ_iff.mp hj)) hlt⟩
    · rintro ⟨p, rfl, hlt⟩
      exact ⟨le_of_lt (lt_of_le_of_lt (refZFl_succ_le fl hfl hz0 dt hdt p) hlt),
        Or.inr ⟨p, Nat.lt_succ_self p, hlt⟩⟩

/-- C8, amended, in binary64 arithmetic at the step `dt = 2^-28`. -/
theorem regime_never_reverts_witness :
    ieee.IsRounding ieee.binary64
    ∧ ieee.binary64 (21 / 2) = 21 / 2
    ∧ (0 : ℚ) < 1 / 2 ^ 28
    ∧ ((∀ i, refZFl ieee.binary64 (1 / 2 ^ 28) g init (i + 1)
          ≤ refZFl ieee.binary64 (1 / 2 ^ 28) g init i)
      ∧ (∀ i, refZFl (fun x => x) (1 / 2 ^ 28) g init i = refZ (1 / 2 ^ 28) g init i)
      ∧ (∀ i, refZ (1 / 2 ^ 28) g init (i + 1) < refZ (1 / 2 ^ 28) g init i)
      ∧ (∀ i j, i ≤ j →
          (varsAtFl ieee.binary64 (1 / 2 ^ 28) g init i).post_contact_correction = true →
          (varsAtFl ieee.binary64 (1 / 2 ^ 28) g init j).post_contact_correction = true)
      ∧ (∀ i j, i < j → checkAtFl ieee.binary64 (1 / 2 ^ 28) g init i = Check.resting →
          checkAtFl ieee.binary64 (1 / 2 ^ 28) g init j = Check.resting)
      ∧ (∀ i, checkAtFl ieee.binary64 (1 / 2 ^ 28) g init i = Check.resting
          ↔ ∃ p, i = p + 1 ∧ refZFl ieee.binary64 (1 / 2 ^ 28) g init p < 1 / 2)) :=
  ⟨ieee.binary64_isRounding, binary64_init_z, by norm_num,
    regime_never_reverts ieee.binary64 ieee.binary64_isRounding binary64_init_z (1 / 2 ^ 28)
      (by norm_num)⟩

end DropStuff

/-! ### Properties of snapshots and stepping -/

namespace physics

open math

section Restore

variable {α σ : Type} (nameOf : α → String) (stateName : σ → String) (write : σ → α → α)

theorem overwriteNamed_names (hname : ∀ st a, nameOf (write st a) = nameOf a) (st : σ)
    (live : List α) :
    (overwriteNamed nameOf stateName write st live).map nameOf = live.map nameOf := by
  induction live with
  | nil => rfl
  | cons a rest ih =>
    unfold overwriteNamed
    split
    · simp [hname]
    · simp [ih]

theorem restoreNamed_cons_of_not_mem (sts : List σ) (a : α) (rest : List α)
    (h : nameOf a ∉ sts.map stateName) :
    restoreNamed nameOf stateName write sts (a :: rest)
      = a :: restoreNamed nameOf stateName write sts rest := by
  induction sts generalizing rest with
  | nil => rfl
  | cons st sts ih =>
    simp only [List.map_cons, List.mem_cons, not_or] at h
    have hne : ¬ nameOf a = stateName st := h.1
    simp only [restoreNamed, List.foldl_cons, overwriteNamed, hne, if_false]
    exact ih _ h.2

/-- With the live names equal to the recorded names and no name twice,
restoring writes each recorded state onto the entity at the same position. -/
theorem restoreNamed_eq_zipWith (hname : ∀ st a, nameOf (write st a) = nameOf a)
    (sts : List σ) (live : List α)
    (hnames : live.map nameOf = sts.map stateName)
    (hnd : (sts.map stateName).Nodup) :
    restoreNamed nameOf stateName write sts live = List.zipWith write sts live := by
  induction sts generalizing live with
  | nil =>
    cases live with
    | nil => rfl
    | cons a rest => simp at hnames
  | cons st sts ih =>
    cases live with
    | nil => simp at hnames
    | cons a rest =>
      simp only [List.map_cons, List.cons.injEq] at hnames
      simp only [List.map_cons, List.nodup_cons] at hnd
      have hhead : restoreNamed nameOf stateName write (st :: sts) (a :: rest)
          = restoreNamed nameOf stateName write sts (write st a :: rest) := by
        simp [restoreNamed, overwriteNamed, hnames.1]
      rw [hhead, restoreNamed_cons_of_not_mem, ih rest hnames.2 hnd.2, List.zipWith_cons_cons]
      rw [hname, hnames.1]
      exact hnd.1

theorem zipWith_capture_id (get : α → σ) (live : List α)
    (h : ∀ a ∈ live, write (get a) a = a) :
    List.zipWith write (live.map get) live = live := by
  induction live with
  | nil => rfl
  | cons a rest ih =>
    simp only [List.map_cons, List.zipWith_cons_cons]
    rw [h a (List.mem_cons_self _ _), ih fun b hb => h b (List.mem_cons_of_mem _ hb)]

end Restore

theorem Model_SetState_name (st : ModelState) (m : Model) : (m.SetState st).name = m.name := rfl

theorem Link_SetState_name (st : LinkState) (l : Link) : (l.SetState st).name = l.name := rfl

theorem GetState_names (w : World) :
    w.GetState.modelStates.map ModelState.name = w.models.map Model.name := by
  simp [World.GetState, Model.GetState, Function.comp_def]

theorem GetState_modelPoses (w : World) : w.GetState.modelPoses = w.modelPoses := by
  simp [World.GetState, Model.GetState, WorldState.modelPoses, World.modelPoses,
    Function.comp_def]

theorem SetModelWorldPose_names (w w1 : World) (name : String) (pose : Pose)
    (h : w.SetModelWorldPose name pose = some w1) :
    w1.models.map Model.name = w.models.map Model.name := by
  unfold World.SetModelWorldPose at h
  split at h
  · cases h
  · cases h
    exact overwriteNamed_names Model.name Prod.fst (fun c m => m.SetWorldPose c.2)
      (fun _ _ => rfl) (name, pose) w.models

theorem SetModelWorldPoses_names (calls : List (String × Pose)) (w w1 : World)
    (h : w.SetModelWorldPoses calls = some w1) :
    w1.models.map Model.name = w.models.map Model.name := by
  induction calls generalizing w with
  | nil =>
    simp only [World.SetModelWorldPoses, Option.some.injEq] at h
    rw [h]
  | cons c rest ih =>
    unfold World.SetModelWorldPoses at h
    split at h
    · cases h
    · rename_i w2 h2
      rw [ih w2 h, SetModelWorldPose_names w w2 c.1 c.2 h2]

/-- After `SetState`, positionally matched models carry the recorded poses. -/
theorem zipWith_SetState_poses (sts : List ModelState) (live : List Model)
    (hnames : live.map Model.name = sts.map ModelState.name) :
    (List.zipWith Model.SetState sts live).map (fun m => (m.name, m.worldPose))
      = sts.map fun ms => (ms.name, ms.pose) := by
  induction sts generalizing live with
  | nil => simp
  | cons st sts ih =>
    cases live with
    | nil => simp at hnames
    | cons a rest =>
      simp only [List.map_cons, List.cons.injEq] at hnames
      simp only [List.zipWith_cons_cons, List.map_cons, ih rest hnames.2]
      simp [Model.SetState, hnames.1]

theorem SetState_modelPoses (s : WorldState) (w : World)
    (hnames : w.models.map Model.name = s.modelStates.map ModelState.name)
    (hnd : (s.modelStates.map ModelState.name).Nodup) :
    (w.SetState s).modelPoses = s.modelPoses := by
  unfold World.SetState World.modelPoses WorldState.modelPoses
  simp only
  rw [restoreNamed_eq_zipWith _ _ _ Model_SetState_name _ _ hnames hnd]
  exact zipWith_SetState_poses _ _ hnames

theorem find_of_mem_nodup (l : List ModelState) (hnd : (l.map ModelState.name).Nodup)
    (ms : ModelState) (hmem : ms ∈ l) :
    l.find? (fun x => x.name = ms.name) = some ms := by
  induction l with
  | nil => cases hmem
  | cons a rest ih =>
    simp only [List.map_cons, List.nodup_cons] at hnd
    rcases List.mem_cons.mp hmem with h | h
    · subst h; simp
    · have hne : ¬ a.name = ms.name := fun he =>
        hnd.1 (he ▸ List.mem_map_of_mem ModelState.name h)
      simp only [List.find?_cons, hne, decide_False]
      exact ih hnd.2 h

theorem Model_SetState_GetState (m : Model) (hnd : (m.links.map Link.name).Nodup) :
    m.SetState m.GetState = m := by
  have hl : restoreNamed Link.name LinkState.name Link.SetState
      (m.links.map Link.GetState) m.links = m.links := by
    rw [restoreNamed_eq_zipWith _ _ _ Link_SetState_name]
    · exact zipWith_capture_id _ _ _ fun _ _ => rfl
    · simp [Link.GetState, Function.comp_def]
    · simpa [Link.GetState, Function.comp_def] using hnd
  unfold Model.SetState
  simp only [Model.GetState, hl]

theorem World.steps_simTime (D : Dynamics) (n : ℕ) (w : World) :
    (World.steps D n w).simTime = w.simTime + n * w.physicsEngine.stepTime
      ∧ (World.steps D n w).physicsEngine = w.physicsEngine := by
  induction n generalizing w with
  | zero => simp [World.steps]
  | succ n ih =>
    obtain ⟨h1, h2⟩ := ih (w.step D)
    simp only [World.steps, h1, h2]
    simp only [World.step]
    refine ⟨?_, trivial⟩
    push_cast; ring

theorem World.StepWorld_one (D : Dynamics) (w : World) :
    w.StepWorld D 1 = .ok (w.step D) := by
  simp [World.StepWorld, World.steps]

theorem World.StepWorldRepeated_one (D : Dynamics) (n : ℕ) (w : World) :
    World.StepWorldRepeated D 1 n w = .ok (World.steps D n w) := by
  induction n generalizing w with
  | zero => rfl
  | succ n ih =>
    simp only [World.StepWorldRepeated, World.StepWorld_one, World.steps]
    exact ih _

/-- C1: for a world in which no two models share a name, with `s` the
snapshot taken from it, after any sequence of `SetWorldPose` calls on existing
models `SetState(s)` makes the world pose of every model the pose recorded in
`s` (position by position, and as looked up in `s` by the name of the model);
`SetState(GetState())` with nothing in between changes no model pose, and
changes nothing at all when no two links of a model share a name. -/
theorem SetState_restores_poses (w w1 : World) (calls : List (String × Pose))
    (hnames : (w.models.map Model.name).Nodup)
    (hcalls : w.SetModelWorldPoses calls = some w1) :
    (w1.SetState w.GetState).modelPoses = w.GetState.modelPoses
    ∧ (∀ m ∈ (w1.SetState w.GetState).models,
        ∃ ms, w.GetState.GetModelState m.name = some ms ∧ m.worldPose = ms.pose)
    ∧ (w.SetState w.GetState).modelPoses = w.modelPoses
    ∧ ((∀ m ∈ w.models, (m.links.map Link.name).Nodup) → w.SetState w.GetState = w) := by
  have hnd : (w.GetState.modelStates.map ModelState.name).Nodup := by
    rw [GetState_names]; exact hnames
  have h1 : (w1.SetState w.GetState).modelPoses = w.GetState.modelPoses :=
    SetState_modelPoses _ _
      ((SetModelWorldPoses_names calls w w1 hcalls).trans (GetState_names w).symm) hnd
  refine ⟨h1, ?_, ?_, ?_⟩
  · intro m hm
    have hmem : (m.name, m.worldPose) ∈ w.GetState.modelPoses := by
      rw [← h1]
      exact List.mem_map_of_mem (fun m => (m.name, m.worldPose)) hm
    obtain ⟨ms, hms, heq⟩ := List.mem_map.mp hmem
    simp only [Prod.mk.injEq] at heq
    refine ⟨ms, ?_, heq.2.symm⟩
    rw [WorldState.GetModelState, ← heq.1]
    exact find_of_mem_nodup _ hnd ms hms
  · rw [SetState_modelPoses _ _ (GetState_names w).symm hnd, GetState_modelPoses]
  · intro hlinks
    have hz : restoreNamed Model.name ModelState.name Model.SetState
        w.GetState.modelStates w.models = w.models := by
      rw [restoreNamed_eq_zipWith _ _ _ Model_SetState_name _ _ (GetState_names w).symm hnd]
      exact zipWith_capture_id _ _ _ fun m hm => Model_SetState_GetState m (hlinks m hm)
    unfold World.SetState
    rw [hz]

/-- C1 on the `State` test: the box of `shapes.world` is captured at
`(0, 0, 0.5)`, moved to `(1, 2, 0.5)`, and reads `(0, 0, 0.5)` again after the
snapshot is restored. -/
theorem SetState_restores_poses_witness :
    (shapesWorld.models.map Model.name).Nodup
    ∧ shapesWorld.SetModelWorldPoses [("box", ⟨⟨1, 2, 1 / 2⟩, Quaternion.zeroEuler⟩)]
        = some movedWorld
    ∧ (movedWorld.GetModel "box").map Model.worldPose
        = some ⟨⟨1, 2, 1 / 2⟩, Quaternion.zeroEuler⟩
    ∧ (movedWorld.SetState shapesWorld.GetState).modelPoses = shapesWorld.GetState.modelPoses
    ∧ ((movedWorld.SetState shapesWorld.GetState).GetModel "box").map Model.worldPose
        = some ⟨⟨0, 0, 1 / 2⟩, Quaternion.zeroEuler⟩ := by
  have hn : (shapesWorld.models.map Model.name).Nodup := by
    simp [shapesWorld, shapeModel]
  have hc : shapesWorld.SetModelWorldPoses [("box", ⟨⟨1, 2, 1 / 2⟩, Quaternion.zeroEuler⟩)]
      = some movedWorld := by
    simp [World.SetModelWorldPoses, World.SetModelWorldPose, World.GetModel, overwriteNamed,
      Model.SetWorldPose, shapesWorld, movedWorld, shapeModel]
  have h := SetState_restores_poses shapesWorld movedWorld _ hn hc
  refine ⟨hn, hc, ?_, h.1, ?_⟩
  · simp [World.GetModel, movedWorld, shapesWorld, shapeModel]
  · simp [World.GetModel, World.SetState, restoreNamed, overwriteNamed, Model.SetState,
      Link.SetState, World.GetState, Model.GetState, Link.GetState, Collision.GetState,
      movedWorld, shapesWorld, shapeModel]

/-- C5: for every `n >= 0`, `StepWorld(n)` succeeds and advances the
simulation time by exactly `n*dt`, leaving `dt` as it was; `StepWorld(0)`
returns the world unchanged (clock and poses); `n` successive `StepWorld(1)`
calls end in the world one `StepWorld(n)` call ends in; and, the step time
being non-negative, no call of `StepWorld` that succeeds decreases the
simulation time. -/
theorem StepWorld_advances_clock (D : Dynamics) (w : World) (n : ℕ) :
    ∃ w1, w.StepWorld D n = .ok w1
      ∧ w1.GetSimTime = w.GetSimTime + n * w.physicsEngine.stepTime
      ∧ w1.physicsEngine.stepTime = w.physicsEngine.stepTime
      ∧ w.StepWorld D 0 = .ok w
      ∧ World.StepWorldRepeated D 1 n w = .ok w1
      ∧ (0 ≤ w.physicsEngine.stepTime →
          ∀ (k : ℤ) (w2 : World), w.StepWorld D k = .ok w2 → w.GetSimTime ≤ w2.GetSimTime) := by
  refine ⟨World.steps D n w, ?_, (World.steps_simTime D n w).1, ?_, ?_,
    World.StepWorldRepeated_one D n w, ?_⟩
  · simp [World.StepWorld]
  · rw [(World.steps_simTime D n w).2]
  · simp [World.StepWorld, World.steps]
  · intro hdt k w2 hk
    unfold World.StepWorld at hk
    split at hk
    · cases hk
    · cases hk
      simp only [World.GetSimTime, (World.steps_simTime D k.toNat w).1]
      have hn : (0 : ℚ) ≤ k.toNat := Nat.cast_nonneg _
      nlinarith [mul_nonneg hn hdt]

/-- C5 on the shapes world with the step `dt = 0.001`: three steps move the
clock from `0` to `0.003`. -/
theorem StepWorld_advances_clock_witness :
    (0 : ℚ) ≤ shapesWorld.physicsEngine.stepTime
    ∧ ∃ w1, shapesWorld.StepWorld restDynamics 3 = .ok w1
        ∧ w1.GetSimTime = 3 / 1000
        ∧ World.StepWorldRepeated restDynamics 1 3 shapesWorld = .ok w1
        ∧ shapesWorld.GetSimTime ≤ w1.GetSimTime := by
  have hdt : (0 : ℚ) ≤ shapesWorld.physicsEngine.stepTime := by
    norm_num [shapesWorld]
  obtain ⟨w1, h1, h2, _, _, h5, h6⟩ := StepWorld_advances_clock restDynamics shapesWorld 3
  refine ⟨hdt, w1, h1, ?_, h5, h6 hdt 3 w1 h1⟩
  rw [h2]
  norm_num [World.GetSimTime, shapesWorld]

end physics

/-! ### Properties of the camera sensor -/

namespace sensors

open sdf

theorem findWorld_none : findWorld none = none := by
  rw [findWorld]

theorem findWorld_some (e : Element) :
    findWorld (some e) = if e.GetName ≠ "world" then findWorld e.GetParent else some e := by
  rw [findWorld]

/-- The loop, started at the parent of `e`, ends at the first proper
ancestor of `e` that is named `"world"`. -/
theorem findWorld_parent :
    ∀ e : Element,
      findWorld e.GetParent = e.ancestors.find? fun a => decide (a.GetName = "world")
  | .mk _ _ none => by
    simp [Element.GetParent, Element.ancestors, findWorld_none]
  | .mk n v (some p) => by
    have ih := findWorld_parent p
    have hp : (Element.mk n v (some p)).GetParent = some p := rfl
    have ha : (Element.mk n v (some p)).ancestors = p :: p.ancestors := by
      simp [Element.ancestors]
    rw [hp, ha, findWorld_some]
    by_cases h : p.GetName = "world"
    · simp [h]
    · simp [h, ih]

theorem findWorld_eq_none_iff (e : Element) :
    findWorld e.GetParent = none ↔ ∀ a ∈ e.ancestors, a.GetName ≠ "world" := by
  rw [findWorld_parent, List.find?_eq_none]
  simp

theorem findWorld_eq_some_iff (e a : Element) :
    findWorld e.GetParent = some a
      ↔ a.GetName = "world"
          ∧ ∃ pre post, e.ancestors = pre ++ a :: post ∧ ∀ x ∈ pre, x.GetName ≠ "world" := by
  rw [findWorld_parent, List.find?_eq_some]
  simp

section Load

variable {B R S C : Type} (env : Collaborators B R S C) (s : CameraSensor B C) (engine : R)

theorem Load_of_none (h : findWorld s.sdf.GetParent = none) :
    CameraSensor.Load env s engine
      = { sensor := { s with base := env.SensorLoad s.sdf s.base }, engine := engine,
          errors := ["Unable to get camera sensor world name\n"],
          calls := [], outcome := .returned } := by
  simp only [CameraSensor.Load, h]

theorem Load_outcome_of_some (a : Element) (h : findWorld s.sdf.GetParent = some a) :
    (CameraSensor.Load env s engine).outcome
      = match (createCamera env (a.GetValueString "name") engine).1 with
        | none => Outcome.returned
        | some cam =>
            if env.GetImageWidth (loadCamera env s.sdf cam) = 0
                ∨ env.GetImageHeight (loadCamera env s.sdf cam) = 0
            then Outcome.threw "image has zero size" else Outcome.returned := by
  simp only [CameraSensor.Load, h]
  cases (createCamera env (a.GetValueString "name") engine).1 with
  | none => rfl
  | some cam =>
    simp only
    split <;> rfl

end Load

/-- On a sensor whose SDF element has no ancestor named `"world"`, `Load()`
reports "Unable to get camera sensor world name" and returns; it makes no
call into the render engine, leaves the render engine and the camera pointer
of the sensor as they were, and the sensor it leaves is the one the base class
`Sensor::Load()` of line 69 left. -/
theorem Load_without_world {B R S C : Type} (env : Collaborators B R S C)
    (s : CameraSensor B C) (engine : R)
    (h : ∀ a ∈ s.sdf.ancestors, a.GetName ≠ "world") :
    (CameraSensor.Load env s engine).outcome = Outcome.returned
    ∧ (CameraSensor.Load env s engine).errors = ["Unable to get camera sensor world name\n"]
    ∧ (CameraSensor.Load env s engine).calls = []
    ∧ (CameraSensor.Load env s engine).engine = engine
    ∧ (CameraSensor.Load env s engine).sensor.camera = s.camera
    ∧ (CameraSensor.Load env s engine).sensor
        = { s with base := env.SensorLoad s.sdf s.base } := by
  rw [Load_of_none env s engine ((findWorld_eq_none_iff s.sdf).mpr h)]
  exact ⟨rfl, rfl, rfl, rfl, rfl, rfl⟩

/-- C7: the constructor connects exactly one callback to the render signal,
`CameraSensor::Render`, keeping the connection to its slot, and that callback
leaves the sensor, the render engine and the world as they are. -/
theorem Render_mutates_nothing {B R C W : Type} (s0 : CameraSensor B C)
    (ev : Events B R C W) (st : Sim B R C W) :
    (CameraSensor.new s0 ev).2.renderSignal = ev.renderSignal ++ [CameraSensor.Render]
    ∧ (CameraSensor.new s0 ev).1.connections
        = s0.connections ++ [{ slot := ev.renderSignal.length }]
    ∧ (CameraSensor.new s0 ev).2.renderSignal[ev.renderSignal.length]?
        = some CameraSensor.Render
    ∧ (CameraSensor.new s0 ev).1.typeName = "monocamera"
    ∧ CameraSensor.Render st = st := by
  refine ⟨rfl, rfl, ?_, rfl, rfl⟩
  simp [CameraSensor.new, Events.ConnectRenderSignal]

/-- C9: `Load()` raises "image has zero size" exactly when (1) the first
proper ancestor named `"world"` exists, call it `a`, (2) the scene obtained
for the `"name"` value of `a` (from `GetScene`, or from `CreateScene` when
`GetScene` returns null) returns a non-null camera from
`CreateCamera("mono_camera")`, and (3) that camera, after
`SetCaptureData(true)` and `Load` on the `"camera"` child of the SDF element of
the sensor, has image width 0 or image height 0.  In the three other cases (no
ancestor named `"world"`; the camera pointer is null; both dimensions
non-zero) it returns, and these are all the cases.  The collaborators are
taken to return normally. -/
theorem Load_throws_iff {B R S C : Type} (env : Collaborators B R S C)
    (s : CameraSensor B C) (engine : R) :
    ((CameraSensor.Load env s engine).outcome = Outcome.threw "image has zero size"
      ↔ ∃ a pre post scene engine1 cam,
          s.sdf.ancestors = pre ++ a :: post ∧ a.GetName = "world"
          ∧ (∀ x ∈ pre, x.GetName ≠ "world")
          ∧ ((env.GetScene (a.GetValueString "name") engine = some scene ∧ engine1 = engine)
              ∨ (env.GetScene (a.GetValueString "name") engine = none
                  ∧ env.CreateScene (a.GetValueString "name") engine = (scene, engine1)))
          ∧ (env.CreateCamera scene "mono_camera" engine1).1 = some cam
          ∧ (env.GetImageWidth (env.CameraLoad (env.GetOrCreateElement "camera" s.sdf)
                (env.SetCaptureData true cam)) = 0
              ∨ env.GetImageHeight (env.CameraLoad (env.GetOrCreateElement "camera" s.sdf)
                (env.SetCaptureData true cam)) = 0))
    ∧ ((CameraSensor.Load env s engine).outcome = Outcome.returned
      ↔ (∀ x ∈ s.sdf.ancestors, x.GetName ≠ "world")
          ∨ (∃ a pre post scene engine1,
              s.sdf.ancestors = pre ++ a :: post ∧ a.GetName = "world"
              ∧ (∀ x ∈ pre, x.GetName ≠ "world")
              ∧ ((env.GetScene (a.GetValueString "name") engine = some scene
                    ∧ engine1 = engine)
                  ∨ (env.GetScene (a.GetValueString "name") engine = none
                      ∧ env.CreateScene (a.GetValueString "name") engine = (scene, engine1)))
              ∧ (env.CreateCamera scene "mono_camera" engine1).1 = none)
          ∨ (∃ a pre post scene engine1 cam,
              s.sdf.ancestors = pre ++ a :: post ∧ a.GetName = "world"
              ∧ (∀ x ∈ pre, x.GetName ≠ "world")
              ∧ ((env.GetScene (a.GetValueString "name") engine = some scene
                    ∧ engine1 = engine)
                  ∨ (env.GetScene (a.GetValueString "name") engine = none
                      ∧ env.CreateScene (a.GetValueString "name") engine = (scene, engine1)))
              ∧ (env.CreateCamera scene "mono_camera" engine1).1 = some cam
              ∧ env.GetImageWidth (env.CameraLoad (env.GetOrCreateElement "camera" s.sdf)
                  (env.SetCaptureData true cam)) ≠ 0
              ∧ env.GetImageHeight (env.CameraLoad (env.GetOrCreateElement "camera" s.sdf)
                  (env.SetCaptureData true cam)) ≠ 0))
    ∧ ((CameraSensor.Load env s engine).outcome = Outcome.returned
        ∨ (CameraSensor.Load env s engine).outcome = Outcome.threw "image has zero size") := by
  cases hfw : findWorld s.sdf.GetParent with
  | none =>
    have hno := (findWorld_eq_none_iff s.sdf).mp hfw
    have hcontra : ∀ (a : Element) (pre post : List Element),
        s.sdf.ancestors = pre ++ a :: post → a.GetName = "world" → False := by
      intro a pre post hsplit hname
      exact hno a (by rw [hsplit]; simp) hname
    rw [Load_of_none env s engine hfw]
    refine ⟨⟨fun h => (by cases h), ?_⟩, ⟨fun _ => Or.inl hno, fun _ => rfl⟩, Or.inl rfl⟩
    rintro ⟨a, pre, post, _, _, _, hsplit, hname, _⟩
    exact (hcontra a pre post hsplit hname).elim
  | some a =>
    obtain ⟨haname, pre, post, hsplit, hpre⟩ := (findWorld_eq_some_iff s.sdf a).mp hfw
    -- any other description of the first world ancestor is `a`
    have huniq : ∀ (a1 : Element) (pre1 post1 : List Element),
        s.sdf.ancestors = pre1 ++ a1 :: post1 → a1.GetName = "world" →
        (∀ x ∈ pre1, x.GetName ≠ "world") → a1 = a := by
      intro a1 pre1 post1 h1 h2 h3
      have := (findWorld_eq_some_iff s.sdf a1).mpr ⟨h2, pre1, post1, h1, h3⟩
      rw [hfw] at this
      exact (Option.some.inj this).symm
    have hworld : ¬ ∀ x ∈ s.sdf.ancestors, x.GetName ≠ "world" := by
      intro h
      exact h a (by rw [hsplit]; simp) haname
    rw [Load_outcome_of_some env s engine a hfw]
    -- the scene and the render engine the camera is asked of
    obtain ⟨scene, engine1, hscene, hcc⟩ :
        ∃ scene engine1,
          ((env.GetScene (a.GetValueString "name") engine = some scene ∧ engine1 = engine)
            ∨ (env.GetScene (a.GetValueString "name") engine = none
                ∧ env.CreateScene (a.GetValueString "name") engine = (scene, engine1)))
          ∧ (createCamera env (a.GetValueString "name") engine).1
              = (env.CreateCamera scene "mono_camera" engine1).1 := by
      unfold createCamera getOrCreateScene
      cases hgs : env.GetScene (a.GetValueString "name") engine with
      | some sc => exact ⟨sc, engine, Or.inl ⟨rfl, rfl⟩, rfl⟩
      | none =>
        exact ⟨(env.CreateScene (a.GetValueString "name") engine).1,
          (env.CreateScene (a.GetValueString "name") engine).2, Or.inr ⟨rfl, rfl⟩, rfl⟩
    have hsceneuniq : ∀ (scene2 : S) (engine2 : R),
        ((env.GetScene (a.GetValueString "name") engine = some scene2 ∧ engine2 = engine)
          ∨ (env.GetScene (a.GetValueString "name") engine = none
              ∧ env.CreateScene (a.GetValueString "name") engine = (scene2, engine2))) →
        scene2 = scene ∧ engine2 = engine1 := by
      intro scene2 engine2 h2
      rcases hscene with ⟨h1, h1e⟩ | ⟨h1, h1c⟩ <;> rcases h2 with ⟨h3, h3e⟩ | ⟨h3, h3c⟩
      · rw [h1] at h3
        exact ⟨(Option.some.inj h3).symm, h3e.trans h1e.symm⟩
      · rw [h1] at h3; cases h3
      · rw [h1] at h3; cases h3
      · rw [h1c] at h3c
        exact ⟨(Prod.mk.inj h3c).1.symm, (Prod.mk.inj h3c).2.symm⟩
    rw [hcc]
    simp only [loadCamera]
    cases hcam : (env.CreateCamera scene "mono_camera" engine1).1 with
    | none =>
      dsimp only
      refine ⟨⟨fun h => (by cases h), ?_⟩, ⟨fun _ => ?_, fun _ => rfl⟩, Or.inl rfl⟩
      · rintro ⟨a1, pre1, post1, scene2, engine2, cam, h1, h2, h3, h4, h5, _⟩
        obtain rfl := huniq a1 pre1 post1 h1 h2 h3
        obtain ⟨rfl, rfl⟩ := hsceneuniq scene2 engine2 h4
        rw [hcam] at h5; cases h5
      · exact Or.inr (Or.inl ⟨a, pre, post, scene, engine1, hsplit, haname, hpre, hscene, hcam⟩)
    | some cam =>
      dsimp only
      by_cases hz : env.GetImageWidth (env.CameraLoad (env.GetOrCreateElement "camera" s.sdf)
            (env.SetCaptureData true cam)) = 0
          ∨ env.GetImageHeight (env.CameraLoad (env.GetOrCreateElement "camera" s.sdf)
            (env.SetCaptureData true cam)) = 0
      · rw [if_pos hz]
        refine ⟨⟨fun _ => ⟨a, pre, post, scene, engine1, cam, hsplit, haname, hpre, hscene,
          hcam, hz⟩, fun _ => rfl⟩, ⟨fun h => (by cases h), ?_⟩, Or.inr rfl⟩
        rintro (h | ⟨a1, pre1, post1, scene2, engine2, h1, h2, h3, h4, h5⟩
          | ⟨a1, pre1, post1, scene2, engine2, cam2, h1, h2, h3, h4, h5, h6, h7⟩)
        · exact (hworld h).elim
        · obtain rfl := huniq a1 pre1 post1 h1 h2 h3
          obtain ⟨rfl, rfl⟩ := hsceneuniq scene2 engine2 h4
          rw [hcam] at h5; cases h5
        · obtain rfl := huniq a1 pre1 post1 h1 h2 h3
          obtain ⟨rfl, rfl⟩ := hsceneuniq scene2 engine2 h4
          rw [hcam] at h5
          obtain rfl := Option.some.inj h5
          rcases hz with h | h
          · exact (h6 h).elim
          · exact (h7 h).elim
      · rw [if_neg hz]
        have hz2 := not_or.mp hz
        refine ⟨⟨fun h => (by cases h), ?_⟩, ⟨fun _ => Or.inr (Or.inr ⟨a, pre, post, scene,
          engine1, cam, hsplit, haname, hpre, hscene, hcam, hz2.1, hz2.2⟩), fun _ => rfl⟩,
          Or.inl rfl⟩
        rintro ⟨a1, pre1, post1, scene2, engine2, cam2, h1, h2, h3, h4, h5, h6⟩
        obtain rfl := huniq a1 pre1 post1 h1 h2 h3
        obtain ⟨rfl, rfl⟩ := hsceneuniq scene2 engine2 h4
        rw [hcam] at h5
        obtain rfl := Option.some.inj h5
        exact (hz h6).elim

/-- C9 on the sensor in the world `"inner"`: with a camera that stays at 0
by 0 `Load()` raises "image has zero size", with a camera of 640 by 480 it
returns. -/
theorem Load_throws_iff_witness :
    (CameraSensor.Load zeroSizeEnv nestedSensor []).outcome
        = Outcome.threw "image has zero size"
    ∧ (CameraSensor.Load plainEnv nestedSensor []).outcome = Outcome.returned := by
  have hanc : nestedSensor.sdf.ancestors
      = [Element.mk "model" [("name", "m")] (some innerWorld)]
          ++ innerWorld :: [outerWorld, Element.mk "gazebo" [("version", "1.0")] none] := by
    simp [nestedSensor, innerWorld, outerWorld, Element.ancestors]
  have hpre : ∀ x ∈ [Element.mk "model" [("name", "m")] (some innerWorld)],
      x.GetName ≠ "world" := by
    simp [Element.GetName]
  have hname : innerWorld.GetName = "world" := rfl
  have hv : innerWorld.GetValueString "name" = "inner" := by
    simp [innerWorld, Element.GetValueString, List.lookup]
  constructor
  · refine (Load_throws_iff zeroSizeEnv nestedSensor []).1.mpr
      ⟨innerWorld, _, _, "inner", ["inner"],
        { captureData := false, imageWidth := 0, imageHeight := 0 },
        hanc, hname, hpre, Or.inr ?_, ?_, Or.inl ?_⟩
    · rw [hv]; simp [zeroSizeEnv, plainEnv]
    · simp [zeroSizeEnv, plainEnv]
    · simp [zeroSizeEnv, plainEnv]
  · refine (Load_throws_iff plainEnv nestedSensor []).2.1.mpr (Or.inr (Or.inr
      ⟨innerWorld, _, _, "inner", ["inner"],
        { captureData := false, imageWidth := 0, imageHeight := 0 },
        hanc, hname, hpre, Or.inr ?_, ?_, ?_, ?_⟩))
    · rw [hv]; simp [plainEnv]
    · simp [plainEnv]
    · simp [plainEnv]
    · simp [plainEnv]

end sensors

end Gazebo
